import Mathlib

/-!
Verification development for the Descriptor binary codec of psd-tools
(`src/psd_tools2/decoder/descriptor.py` and `src/psd_tools2/decoder/base.py`).

The codec is shallowly embedded: streams are byte lists, reads are explicit
state-passing functions returning `Except`, writes return the appended bytes
together with the byte count the source accumulates in its `written` variable.
Machine integers are `Nat`/`Int` with explicit bounds; IEEE doubles are carried
as their 64-bit big-endian bit patterns (the codec never interprets them).

The helper modules `psd_tools2.utils` and `psd_tools2.constants` are not part
of the two source files; the definitions translated from them are marked
`Modelled from the spec:` and follow the specification text (spec §4.2, §6).
-/

/-- A byte, kept as `Nat`; values written by the codec are below 256. -/
abbrev Byte := Nat

/-- A byte stream / byte string. -/
abbrev ByteSeq := List Nat

/-- A UTF-16 string as its list of 16-bit code units. -/
abbrev UString := List Nat

/-- Big-endian interpretation of a byte sequence as an unsigned number. -/
def beNat (bs : ByteSeq) : Nat := bs.foldl (fun a b => a * 256 + b) 0

/-- Big-endian 4-byte encoding of an unsigned 32-bit number
(`struct.pack` with format `>I`). -/
def u32be (n : Nat) : ByteSeq :=
  [n / 16777216 % 256, n / 65536 % 256, n / 256 % 256, n % 256]

/-- Big-endian 8-byte encoding of an unsigned 64-bit number. -/
def u64be (n : Nat) : ByteSeq :=
  [n / 72057594037927936 % 256, n / 281474976710656 % 256,
   n / 1099511627776 % 256, n / 4294967296 % 256,
   n / 16777216 % 256, n / 65536 % 256, n / 256 % 256, n % 256]

/-- Two's-complement 4-byte encoding of a signed 32-bit integer
(`struct.pack` with format `>i`). -/
def i32be (v : Int) : ByteSeq := u32be ((v % 4294967296).toNat)

/-- Two's-complement 8-byte encoding of a signed 64-bit integer
(`struct.pack` with format `>q`). -/
def i64be (v : Int) : ByteSeq := u64be ((v % 18446744073709551616).toNat)

/-- Signed interpretation of an unsigned 32-bit value. -/
def sign32 (n : Nat) : Int :=
  if n < 2147483648 then (n : Int) else (n : Int) - 4294967296

/-- Signed interpretation of an unsigned 64-bit value. -/
def sign64 (n : Nat) : Int :=
  if n < 9223372036854775808 then (n : Int) else (n : Int) - 18446744073709551616

/-- Number of zero bytes needed to pad a block of `m` bytes to a multiple
of 4 (Python `-m % 4`). -/
def padLen (m : Nat) : Nat := (4 - m % 4) % 4

/-- Decode pairs of bytes as big-endian 16-bit code units. -/
def unitsOfBytes : ByteSeq → UString
  | a :: b :: rest => (a * 256 + b) :: unitsOfBytes rest
  | _ => []

/-- Encode 16-bit code units as big-endian byte pairs. -/
def bytesOfUnits : UString → ByteSeq
  | [] => []
  | u :: rest => (u / 256 % 256) :: (u % 256) :: bytesOfUnits rest

/-- Error kinds of the codec. `truncated` stands for `struct.error` on a short
fixed-width read, `unknownTag` for the `ValueError` raised when a 4-byte type
tag is not in the registry, `invalidUnit` for the `ValueError` raised by the
`UnitFloatType` converter/validator, `nameError` for the `NameError` raised by
the un-imported `warnings.warn` call at descriptor.py line 102, and
`outOfFuel` for exhaustion of the recursion budget of the shallow embedding
(never reached when the budget is at least the nesting depth). -/
inductive PError where
  | truncated
  | unknownTag (tag : ByteSeq)
  | invalidUnit (code : ByteSeq)
  | nameError
  | outOfFuel
  deriving DecidableEq

/-- The 4-byte on-disk type tags (`OSType` in `psd_tools2.constants`).
Modelled from the spec: §4.1 requires one tag per registered variant; the
registered variants are exactly those decorated with `@register` in
descriptor.py, and each tag is a distinct 4-byte code. -/
inductive OSType where
  | reference
  | descriptor
  | list
  | double
  | unitFloat
  | string
  | enumerated
  | integer
  | largeInteger
  | boolean
  | globalObject
  | class1
  | class2
  | alias
  | rawData
  | objectArray
  | path
  | property
  | class3
  | enumeratedReference
  | offset
  | identifier
  | index
  | name
  | unitFloats
  deriving DecidableEq

/-- Modelled from the spec: the canonical 4-byte code of each type tag
(ASCII, as in the PSD documentation). -/
def OSType.code : OSType → ByteSeq
  | .reference => [111, 98, 106, 32]
  | .descriptor => [79, 98, 106, 99]
  | .list => [86, 108, 76, 115]
  | .double => [100, 111, 117, 98]
  | .unitFloat => [85, 110, 116, 70]
  | .string => [84, 69, 88, 84]
  | .enumerated => [101, 110, 117, 109]
  | .integer => [108, 111, 110, 103]
  | .largeInteger => [99, 111, 109, 112]
  | .boolean => [98, 111, 111, 108]
  | .globalObject => [71, 108, 98, 79]
  | .class1 => [116, 121, 112, 101]
  | .class2 => [71, 108, 98, 67]
  | .alias => [97, 108, 105, 115]
  | .rawData => [116, 100, 116, 97]
  | .objectArray => [79, 98, 65, 114]
  | .path => [80, 116, 104, 32]
  | .property => [112, 114, 111, 112]
  | .class3 => [67, 108, 115, 115]
  | .enumeratedReference => [69, 110, 109, 114]
  | .offset => [114, 101, 108, 101]
  | .identifier => [73, 100, 110, 116]
  | .index => [105, 110, 100, 120]
  | .name => [110, 97, 109, 101]
  | .unitFloats => [85, 110, 70, 108]

/-- All registered tags, mirroring the `TYPES` registry of descriptor.py:
every `@register`-decorated class, and only those. -/
def allOSTypes : List OSType :=
  [.reference, .descriptor, .list, .double, .unitFloat, .string, .enumerated,
   .integer, .largeInteger, .boolean, .globalObject, .class1, .class2, .alias,
   .rawData, .objectArray, .path, .property, .class3, .enumeratedReference,
   .offset, .identifier, .index, .name, .unitFloats]

/-- Resolve 4 raw bytes against the tag table (the `OSType(...)` enum
constructor combined with the `TYPES.get` lookup: every member of `OSType`
is registered, so both failure sites of descriptor.py lines 95-98 and
167-170 collapse into this single lookup). -/
def OSType.ofCode (b : ByteSeq) : Option OSType :=
  allOSTypes.find? (fun t => decide (t.code = b))

/-- Modelled from the spec: the fixed enumerated set of well-known 4-byte
identifiers (`DescriptorClassID` in `psd_tools2.constants`); §3 names `NULL`.
Representative members suffice: the claims quantify over membership. -/
inductive DescriptorClassID where
  | null
  | name
  deriving DecidableEq

/-- Modelled from the spec: the canonical 4-byte code of each well-known
identifier (`null` and `Nm  ` in ASCII). -/
def DescriptorClassID.code : DescriptorClassID → ByteSeq
  | .null => [110, 117, 108, 108]
  | .name => [78, 109, 32, 32]

/-- All well-known identifiers. -/
def allDescriptorClassIDs : List DescriptorClassID := [.null, .name]

/-- Resolve 4 raw bytes against the well-known-identifier enumeration
(the `DescriptorClassID(key)` enum constructor; `none` models its
`ValueError`). -/
def DescriptorClassID.ofCode (b : ByteSeq) : Option DescriptorClassID :=
  allDescriptorClassIDs.find? (fun c => decide (c.code = b))

/-- Modelled from the spec: the fixed unit-type enumeration
(`UnitFloatType` in `psd_tools2.constants`), with its canonical codes. -/
inductive UnitFloatType where
  | angle
  | density
  | distance
  | nne
  | percent
  | pixels
  | points
  | millimeters
  deriving DecidableEq

/-- Modelled from the spec: the 4-byte code of each unit type. -/
def UnitFloatType.code : UnitFloatType → ByteSeq
  | .angle => [35, 65, 110, 103]
  | .density => [35, 82, 115, 108]
  | .distance => [35, 82, 108, 116]
  | .nne => [35, 78, 110, 101]
  | .percent => [35, 80, 114, 99]
  | .pixels => [35, 80, 120, 108]
  | .points => [35, 80, 110, 116]
  | .millimeters => [35, 77, 108, 109]

/-- All unit types. -/
def allUnitFloatTypes : List UnitFloatType :=
  [.angle, .density, .distance, .nne, .percent, .pixels, .points, .millimeters]

/-- Resolve 4 raw bytes against the unit-type enumeration (the
`UnitFloatType(...)` converter; `none` models its `ValueError`). -/
def UnitFloatType.ofCode (b : ByteSeq) : Option UnitFloatType :=
  allUnitFloatTypes.find? (fun u => decide (u.code = b))

/-- A descriptor key / classID: either a well-known identifier (a
`DescriptorClassID` member) or an arbitrary byte string — the sum type the
spec calls Key (§3). -/
inductive DKey where
  | known : DescriptorClassID → DKey
  | raw : ByteSeq → DKey
  deriving DecidableEq

/-- Modelled from the spec: `read_fmt` on a fixed width — read exactly `n`
bytes, failing with `struct.error` (here `.truncated`) when fewer are
available. -/
def read_fmt_bytes (n : Nat) (s : ByteSeq) : Except PError (ByteSeq × ByteSeq) :=
  if s.length < n then .error .truncated else .ok (s.take n, s.drop n)

/-- Modelled from the spec: `read_fmt('I', fp)` — big-endian unsigned
32-bit read. -/
def read_fmt_I (s : ByteSeq) : Except PError (Nat × ByteSeq) :=
  match read_fmt_bytes 4 s with
  | .error e => .error e
  | .ok (b, rest) => .ok (beNat b, rest)

/-- `read_length_and_key` (descriptor.py lines 36-48): read a 4-byte length
`L`; read `L or 4` bytes (Python `fp.read` returns what is available, short
reads included); when `L = 0` attempt to resolve the 4 bytes as a well-known
identifier, falling back to the raw bytes with a `logger.warning` diagnostic
(the returned `Bool` records whether the diagnostic was emitted). -/
def read_length_and_key (s : ByteSeq) : Except PError (DKey × Bool × ByteSeq) :=
  match read_fmt_I s with
  | .error e => .error e
  | .ok (length, s₁) =>
    let key := s₁.take (if length = 0 then 4 else length)
    let s₂ := s₁.drop (if length = 0 then 4 else length)
    if length = 0 then
      match DescriptorClassID.ofCode key with
      | some c => .ok (.known c, false, s₂)
      | none => .ok (.raw key, true, s₂)
    else
      .ok (.raw key, false, s₂)

/-- Modelled from the spec: `read_unicode_string` (§6) — 4-byte code-unit
count `C`, then `2*C` bytes of UTF-16BE text; when the padding mode is
active (the `padding=1` argument at the call sites) the total block of
`4 + 2*C` bytes is padded to a multiple of 4, and the padding is consumed
on read. -/
def read_unicode_string (padded : Bool) (s : ByteSeq) :
    Except PError (UString × ByteSeq) :=
  match read_fmt_I s with
  | .error e => .error e
  | .ok (c, s₁) =>
    if s₁.length < 2 * c then .error .truncated else
      let u := unitsOfBytes (s₁.take (2 * c))
      let s₂ := s₁.drop (2 * c)
      let pad := if padded then padLen (4 + 2 * c) else 0
      if s₂.length < pad then .error .truncated else .ok (u, s₂.drop pad)

/-- Modelled from the spec: `read_length_block` (§6) — 4-byte length prefix
followed by that many raw bytes; truncation is fatal (§7). -/
def read_length_block (s : ByteSeq) : Except PError (ByteSeq × ByteSeq) :=
  match read_fmt_I s with
  | .error e => .error e
  | .ok (n, s₁) =>
    if s₁.length < n then .error .truncated else .ok (s₁.take n, s₁.drop n)

/-- Modelled from the spec: `write_fmt('I', n)` — returns the bytes appended
and the byte count `write_bytes` reports. -/
def write_fmt_I (n : Nat) : ByteSeq × Nat := (u32be n, 4)

/-- Modelled from the spec: `write_unicode_string` — code-unit count, UTF-16BE
payload, and zero padding to a multiple of 4 when the padding mode is
active. -/
def write_unicode_string (padded : Bool) (u : UString) : ByteSeq × Nat :=
  let body := u32be u.length ++ bytesOfUnits u
  let pad := if padded then padLen (4 + 2 * u.length) else 0
  (body ++ List.replicate pad 0, 4 + 2 * u.length + pad)

/-- Modelled from the spec: `write_length_block` for `RawData.write` —
4-byte length prefix followed by the raw bytes. -/
def write_length_block (b : ByteSeq) : ByteSeq × Nat :=
  (u32be b.length ++ b, 4 + b.length)

/-- `write_length_and_key` (descriptor.py lines 51-61). The membership test
`value in DescriptorClassID` is true exactly when the value is an
enumeration member: for a plain (non-mixin) Python `Enum`, a raw `bytes`
object is not contained in the class, and the compact branch would in any
case fail on `value.value` since `bytes` has no `value` attribute. A
well-known member is written as length 0 plus its canonical code; arbitrary
bytes are written as their length followed by the bytes themselves. -/
def write_length_and_key (k : DKey) : ByteSeq × Nat :=
  match k with
  | .known c => (u32be 0 ++ c.code, 4 + 4)
  | .raw b => (u32be b.length ++ b, 4 + b.length)

/-- The decoded value tree. One constructor per concrete shape in
descriptor.py; shapes with registered alias subclasses (`Class1/2/3`,
`Reference`, `Alias`/`Path`, `GlobalObject`/`ObjectArray`,
`Identifier`/`Index`, `Name`) additionally carry the `OSType` tag the
`register` decorator stores on the concrete class, so that an instance of an
alias keeps its own tag identity. `Double` and `UnitFloat(s)` values are
64-bit IEEE bit patterns; `Offset.value` is the unsigned 32-bit offset. -/
inductive Element where
  | descriptor (tag : OSType) (name : UString) (classID : DKey)
      (items : List (DKey × Element))
  | list (tag : OSType) (items : List Element)
  | property (name : UString) (classID : DKey) (keyID : DKey)
  | unitFloat (unit : UnitFloatType) (value : Nat)
  | unitFloats (unit : UnitFloatType) (values : List Nat)
  | double (value : Nat)
  | classE (tag : OSType) (name : UString) (classID : DKey)
  | string (tag : OSType) (value : UString)
  | enumeratedReference (name : UString) (classID : DKey) (typeID : DKey)
      (enum : DKey)
  | offset (name : UString) (classID : DKey) (value : Nat)
  | boolean (value : Bool)
  | largeInteger (value : Int)
  | integer (tag : OSType) (value : Int)
  | enum (typeID : DKey) (enum : DKey)
  | rawData (tag : OSType) (value : ByteSeq)

/-- The tag stored on an element's class by the `register` decorator
(`cls.ostype`); for alias classes it is the alias's own tag. -/
def Element.ostype : Element → OSType
  | .descriptor t _ _ _ => t
  | .list t _ => t
  | .property _ _ _ => .property
  | .unitFloat _ _ => .unitFloat
  | .unitFloats _ _ => .unitFloats
  | .double _ => .double
  | .classE t _ _ => t
  | .string t _ => t
  | .enumeratedReference _ _ _ _ => .enumeratedReference
  | .offset _ _ _ => .offset
  | .boolean _ => .boolean
  | .largeInteger _ => .largeInteger
  | .integer t _ => t
  | .enum _ _ => .enumerated
  | .rawData t _ => t

/-- Replace the stored tag of a tagged shape (the difference between an
alias class and its parent class); shapes without alias subclasses are
unchanged. -/
def Element.retag : Element → OSType → Element
  | .descriptor _ n c i, t => .descriptor t n c i
  | .list _ i, t => .list t i
  | .classE _ n c, t => .classE t n c
  | .string _ u, t => .string t u
  | .integer _ v, t => .integer t v
  | .rawData _ b, t => .rawData t b
  | e, _ => e

/-- One `OrderedDict` update: assigning to an existing key replaces its value
in place (keeping the first-insertion position); a new key is appended. -/
def odUpdate (m : List (DKey × Element)) (k : DKey) (v : Element) :
    List (DKey × Element) :=
  if m.any (fun p => decide (p.1 = k)) then
    m.map (fun p => if p.1 = k then (p.1, v) else p)
  else m ++ [(k, v)]

/-- `OrderedDict(items)`: the `attr.ib(converter=OrderedDict)` conversion of
the decoded `(key, value)` pair list (descriptor.py line 81). -/
def toOrderedDict (l : List (DKey × Element)) : List (DKey × Element) :=
  l.foldl (fun m kv => odUpdate m kv.1 kv.2) []

/-- Descriptor.read lines 100-103: the null-value guard on a sub-decoder's
result. The diagnostic branch calls `warnings.warn`, but the module never
imports `warnings` (lines 6-20), so a `None` value raises `NameError` and
aborts the decode; a non-`None` value is recorded unchanged. -/
def recordEntry (key : DKey) (value : Option Element) :
    Except PError (DKey × Element) :=
  match value with
  | none => .error .nameError
  | some v => .ok (key, v)

/-- The entry loop of `Descriptor.read` (descriptor.py lines 93-103): for
each of `count` entries read a key, a 4-byte type tag, dispatch through the
registry (`dec`, instantiated with `decodeBody` below), and record the
entry. An unresolvable tag is the registry's hard failure. -/
def decodeDescItems (dec : OSType → ByteSeq → Except PError (Element × ByteSeq)) :
    Nat → ByteSeq → Except PError (List (DKey × Element) × ByteSeq)
  | 0, s => .ok ([], s)
  | c + 1, s =>
    match read_length_and_key s with
    | .error e => .error e
    | .ok (key, _, s₁) =>
      match OSType.ofCode (s₁.take 4) with
      | none => .error (.unknownTag (s₁.take 4))
      | some t =>
        match dec t (s₁.drop 4) with
        | .error e => .error e
        | .ok (v, s₂) =>
          match recordEntry key (some v) with
          | .error e => .error e
          | .ok kv =>
            match decodeDescItems dec c s₂ with
            | .error e => .error e
            | .ok (rest, s₃) => .ok (kv :: rest, s₃)

/-- The item loop of `List.read` (descriptor.py lines 164-172): for each of
`count` items read a 4-byte tag, dispatch, and append. -/
def decodeListItems (dec : OSType → ByteSeq → Except PError (Element × ByteSeq)) :
    Nat → ByteSeq → Except PError (List Element × ByteSeq)
  | 0, s => .ok ([], s)
  | c + 1, s =>
    match OSType.ofCode (s.take 4) with
    | none => .error (.unknownTag (s.take 4))
    | some t =>
      match dec t (s.drop 4) with
      | .error e => .error e
      | .ok (v, s₁) =>
        match decodeListItems dec c s₁ with
        | .error e => .error e
        | .ok (rest, s₂) => .ok (v :: rest, s₂)

/-- Body of `Descriptor.read` (descriptor.py lines 83-105) up to the final
`cls(...)` construction: padded name, classID, entry count, entries. -/
def descriptorReadCore
    (dec : OSType → ByteSeq → Except PError (Element × ByteSeq)) (s : ByteSeq) :
    Except PError ((UString × DKey × List (DKey × Element)) × ByteSeq) :=
  match read_unicode_string true s with
  | .error e => .error e
  | .ok (name, s₁) =>
    match read_length_and_key s₁ with
    | .error e => .error e
    | .ok (classID, _, s₂) =>
      match read_fmt_I s₂ with
      | .error e => .error e
      | .ok (count, s₃) =>
        match decodeDescItems dec count s₃ with
        | .error e => .error e
        | .ok (items, s₄) => .ok ((name, classID, toOrderedDict items), s₄)

/-- `Descriptor.read`: the `cls` parameter of the classmethod is the tag of
the concrete class (`Descriptor`, `GlobalObject` or `ObjectArray`). -/
def descriptorRead
    (dec : OSType → ByteSeq → Except PError (Element × ByteSeq)) (t : OSType)
    (s : ByteSeq) : Except PError (Element × ByteSeq) :=
  match descriptorReadCore dec s with
  | .error e => .error e
  | .ok ((name, classID, items), s₁) =>
    .ok (.descriptor t name classID items, s₁)

/-- `List.read` (descriptor.py lines 158-173); `t` is the concrete class's
tag (`List` or `Reference`). -/
def listRead
    (dec : OSType → ByteSeq → Except PError (Element × ByteSeq)) (t : OSType)
    (s : ByteSeq) : Except PError (Element × ByteSeq) :=
  match read_fmt_I s with
  | .error e => .error e
  | .ok (count, s₁) =>
    match decodeListItems dec count s₁ with
    | .error e => .error e
    | .ok (items, s₂) => .ok (.list t items, s₂)

/-- `Property.read` (descriptor.py lines 199-208): unpadded name, classID,
keyID. -/
def propertyRead (s : ByteSeq) : Except PError (Element × ByteSeq) :=
  match read_unicode_string false s with
  | .error e => .error e
  | .ok (name, s₁) =>
    match read_length_and_key s₁ with
    | .error e => .error e
    | .ok (classID, _, s₂) =>
      match read_length_and_key s₂ with
      | .error e => .error e
      | .ok (keyID, _, s₃) => .ok (.property name classID keyID, s₃)

/-- `UnitFloat.read` (descriptor.py lines 234-240): `read_fmt('4sd')`
(12 bytes) then construction, whose `UnitFloatType` converter/validator
raises on a code outside the enumeration. -/
def unitFloatRead (s : ByteSeq) : Except PError (Element × ByteSeq) :=
  if s.length < 12 then .error .truncated else
    match UnitFloatType.ofCode (s.take 4) with
    | none => .error (.invalidUnit (s.take 4))
    | some u => .ok (.unitFloat u (beNat ((s.drop 4).take 8)), s.drop 12)

/-- Read `count` big-endian 8-byte values (`read_fmt('%dd')` payload). -/
def readDoubles : Nat → ByteSeq → List Nat
  | 0, _ => []
  | c + 1, s => beNat (s.take 8) :: readDoubles c (s.drop 8)

/-- `UnitFloats.read` (descriptor.py lines 266-274): `read_fmt('4sI')`, then
`count` doubles, then construction with the same unit validator. -/
def unitFloatsRead (s : ByteSeq) : Except PError (Element × ByteSeq) :=
  if s.length < 8 then .error .truncated else
    let unitBytes := s.take 4
    let count := beNat ((s.drop 4).take 4)
    let s₁ := s.drop 8
    if s₁.length < 8 * count then .error .truncated else
      match UnitFloatType.ofCode unitBytes with
      | none => .error (.invalidUnit unitBytes)
      | some u => .ok (.unitFloats u (readDoubles count s₁), s₁.drop (8 * count))

/-- `Double.read` (descriptor.py lines 305-311): 8-byte IEEE value, carried
as its bit pattern. -/
def doubleRead (s : ByteSeq) : Except PError (Element × ByteSeq) :=
  match read_fmt_bytes 8 s with
  | .error e => .error e
  | .ok (b, rest) => .ok (.double (beNat b), rest)

/-- `Class.read` (descriptor.py lines 335-343): unpadded name and classID;
`t` is the registered concrete class (`Class1`, `Class2` or `Class3`). -/
def classRead (t : OSType) (s : ByteSeq) : Except PError (Element × ByteSeq) :=
  match read_unicode_string false s with
  | .error e => .error e
  | .ok (name, s₁) =>
    match read_length_and_key s₁ with
    | .error e => .error e
    | .ok (classID, _, s₂) => .ok (.classE t name classID, s₂)

/-- `String.read` (descriptor.py lines 365-371): padded unicode payload;
`t` is `String` or its alias `Name`. -/
def stringRead (t : OSType) (s : ByteSeq) : Except PError (Element × ByteSeq) :=
  match read_unicode_string true s with
  | .error e => .error e
  | .ok (u, s₁) => .ok (.string t u, s₁)

/-- `EnumeratedReference.read` (descriptor.py lines 397-407): unpadded name,
classID, typeID, enum. -/
def enumeratedReferenceRead (s : ByteSeq) : Except PError (Element × ByteSeq) :=
  match read_unicode_string false s with
  | .error e => .error e
  | .ok (name, s₁) =>
    match read_length_and_key s₁ with
    | .error e => .error e
    | .ok (classID, _, s₂) =>
      match read_length_and_key s₂ with
      | .error e => .error e
      | .ok (typeID, _, s₃) =>
        match read_length_and_key s₃ with
        | .error e => .error e
        | .ok (en, _, s₄) =>
          .ok (.enumeratedReference name classID typeID en, s₄)

/-- `Offset.read` (descriptor.py lines 433-442): unpadded name, classID,
unsigned 32-bit offset. -/
def offsetRead (s : ByteSeq) : Except PError (Element × ByteSeq) :=
  match read_unicode_string false s with
  | .error e => .error e
  | .ok (name, s₁) =>
    match read_length_and_key s₁ with
    | .error e => .error e
    | .ok (classID, _, s₂) =>
      match read_fmt_I s₂ with
      | .error e => .error e
      | .ok (v, s₃) => .ok (.offset name classID v, s₃)

/-- `Bool.read` (descriptor.py lines 465-471): one byte, nonzero is true. -/
def boolRead (s : ByteSeq) : Except PError (Element × ByteSeq) :=
  match read_fmt_bytes 1 s with
  | .error e => .error e
  | .ok (b, rest) => .ok (.boolean (decide (beNat b ≠ 0)), rest)

/-- `LargeInteger.read` (descriptor.py lines 494-500): signed 64-bit. -/
def largeIntegerRead (s : ByteSeq) : Except PError (Element × ByteSeq) :=
  match read_fmt_bytes 8 s with
  | .error e => .error e
  | .ok (b, rest) => .ok (.largeInteger (sign64 (beNat b)), rest)

/-- `Integer.read` (descriptor.py lines 526-532): signed 32-bit; `t` is
`Integer` or one of its aliases `Identifier`, `Index`. -/
def integerRead (t : OSType) (s : ByteSeq) : Except PError (Element × ByteSeq) :=
  match read_fmt_bytes 4 s with
  | .error e => .error e
  | .ok (b, rest) => .ok (.integer t (sign32 (beNat b)), rest)

/-- `Enum.read` (descriptor.py lines 559-567): typeID and enum keys. -/
def enumRead (s : ByteSeq) : Except PError (Element × ByteSeq) :=
  match read_length_and_key s with
  | .error e => .error e
  | .ok (typeID, _, s₁) =>
    match read_length_and_key s₁ with
    | .error e => .error e
    | .ok (en, _, s₂) => .ok (.enum typeID en, s₂)

/-- `RawData.read` (descriptor.py lines 591-597): a length block; `t` is
`RawData` or one of its aliases `Alias`, `Path`. -/
def rawDataRead (t : OSType) (s : ByteSeq) : Except PError (Element × ByteSeq) :=
  match read_length_block s with
  | .error e => .error e
  | .ok (b, rest) => .ok (.rawData t b, rest)

/-- Registry dispatch plus each variant's `read`: decode the body of the
variant registered for tag `t`. The fuel argument bounds the nesting depth
of the composite variants; it is decremented exactly when a container
re-enters the registry, so any fuel at least the tree's depth is enough. -/
def decodeBody : Nat → OSType → ByteSeq → Except PError (Element × ByteSeq)
  | 0, _, _ => .error .outOfFuel
  | f + 1, t, s =>
    match t with
    | .descriptor => descriptorRead (decodeBody f) .descriptor s
    | .globalObject => descriptorRead (decodeBody f) .globalObject s
    | .objectArray => descriptorRead (decodeBody f) .objectArray s
    | .list => listRead (decodeBody f) .list s
    | .reference => listRead (decodeBody f) .reference s
    | .property => propertyRead s
    | .unitFloat => unitFloatRead s
    | .unitFloats => unitFloatsRead s
    | .double => doubleRead s
    | .class1 => classRead .class1 s
    | .class2 => classRead .class2 s
    | .class3 => classRead .class3 s
    | .string => stringRead .string s
    | .name => stringRead .name s
    | .enumeratedReference => enumeratedReferenceRead s
    | .offset => offsetRead s
    | .boolean => boolRead s
    | .largeInteger => largeIntegerRead s
    | .integer => integerRead .integer s
    | .identifier => integerRead .identifier s
    | .index => integerRead .index s
    | .enumerated => enumRead s
    | .rawData => rawDataRead .rawData s
    | .alias => rawDataRead .alias s
    | .path => rawDataRead .path s

/-- `BaseElement.frombytes` for the class registered at tag `t`: decode the
body from a byte string. A fuel of one more than the stream length always
exceeds the possible nesting depth, since each nesting level consumes
bytes. -/
def frombytes (t : OSType) (data : ByteSeq) :
    Except PError (Element × ByteSeq) :=
  decodeBody (data.length + 1) t data

/-- Big-endian 8-byte encodings of a list of doubles
(`write_fmt('%dd', ...)` payload). -/
def writeDoubles : List Nat → ByteSeq
  | [] => []
  | v :: rest => u64be v ++ writeDoubles rest

mutual

/-- Each variant's `write`: the bytes appended to the stream and the byte
count the source's `written` variable accumulates. The tag of a tagged shape
is not written by the body (containers write `item.ostype.value`
themselves). -/
def writeBody : Element → ByteSeq × Nat
  | .descriptor _ n c items =>
    let a := write_unicode_string true n
    let b := write_length_and_key c
    let cnt := write_fmt_I items.length
    let d := writeDescItems items
    (a.1 ++ b.1 ++ cnt.1 ++ d.1, a.2 + b.2 + cnt.2 + d.2)
  | .list _ items =>
    let cnt := write_fmt_I items.length
    let d := writeListItems items
    (cnt.1 ++ d.1, cnt.2 + d.2)
  | .property n c k =>
    let a := write_unicode_string false n
    let b := write_length_and_key c
    let d := write_length_and_key k
    (a.1 ++ b.1 ++ d.1, a.2 + b.2 + d.2)
  | .unitFloat u v => (u.code ++ u64be v, 12)
  | .unitFloats u vs =>
    let d := writeDoubles vs
    (u.code ++ u32be vs.length ++ d, 8 + d.length)
  | .double v => (u64be v, 8)
  | .classE _ n c =>
    let a := write_unicode_string false n
    let b := write_length_and_key c
    (a.1 ++ b.1, a.2 + b.2)
  | .string _ u => write_unicode_string true u
  | .enumeratedReference n c t e =>
    let a := write_unicode_string false n
    let b := write_length_and_key c
    let d := write_length_and_key t
    let f := write_length_and_key e
    (a.1 ++ b.1 ++ d.1 ++ f.1, a.2 + b.2 + d.2 + f.2)
  | .offset n c v =>
    let a := write_unicode_string false n
    let b := write_length_and_key c
    let d := write_fmt_I v
    (a.1 ++ b.1 ++ d.1, a.2 + b.2 + d.2)
  | .boolean v => ([if v then 1 else 0], 1)
  | .largeInteger v => (i64be v, 8)
  | .integer _ v => (i32be v, 4)
  | .enum t e =>
    let a := write_length_and_key t
    let b := write_length_and_key e
    (a.1 ++ b.1, a.2 + b.2)
  | .rawData _ b => write_length_block b

/-- The entry loop of `Descriptor.write` (descriptor.py lines 115-118): for
each entry in order, key, the value's own stored tag, the value's body. -/
def writeDescItems : List (DKey × Element) → ByteSeq × Nat
  | [] => ([], 0)
  | (k, v) :: rest =>
    let a := write_length_and_key k
    let t := ((Element.ostype v).code, (Element.ostype v).code.length)
    let w := writeBody v
    let r := writeDescItems rest
    (a.1 ++ t.1 ++ w.1 ++ r.1, a.2 + t.2 + w.2 + r.2)

/-- The item loop of `List.write` (descriptor.py lines 180-184): each item's
own stored tag then its body. -/
def writeListItems : List Element → ByteSeq × Nat
  | [] => ([], 0)
  | v :: rest =>
    let t := ((Element.ostype v).code, (Element.ostype v).code.length)
    let w := writeBody v
    let r := writeListItems rest
    (t.1 ++ w.1 ++ r.1, t.2 + w.2 + r.2)

end

/-- `BaseElement.tobytes`: the bytes of the element's body. -/
def tobytes (e : Element) : ByteSeq := (writeBody e).1

mutual

/-- Nesting depth of an element: the number of times decoding it re-enters
the registry, plus one. -/
def Element.depth : Element → Nat
  | .descriptor _ _ _ items => depthItems items + 1
  | .list _ items => depthList items + 1
  | _ => 1

/-- Maximal depth of the values of a descriptor entry list. -/
def depthItems : List (DKey × Element) → Nat
  | [] => 0
  | (_, v) :: rest => max v.depth (depthItems rest)

/-- Maximal depth of the elements of a list. -/
def depthList : List Element → Nat
  | [] => 0
  | v :: rest => max v.depth (depthList rest)

end

/-- All code units of a string fit the 16-bit wire encoding and the count
fits its 32-bit field. -/
def ustrWF (u : UString) : Bool :=
  decide (u.length < 4294967296) && u.all (fun c => decide (c < 65536))

/-- A byte string fits its 32-bit length field and consists of bytes. -/
def bytesWF (b : ByteSeq) : Bool :=
  decide (b.length < 4294967296) && b.all (fun x => decide (x < 256))

/-- A key is representable on the wire: a well-known identifier, or a
nonempty byte string (an empty arbitrary key would be written with length 0
and re-read through the well-known branch). -/
def keyWF : DKey → Bool
  | .known _ => true
  | .raw b => decide (b ≠ []) && bytesWF b

mutual

/-- Well-formed, wire-representable elements: tags agree with shapes (as the
`register` decorator guarantees for decoded and constructed instances),
numeric fields fit their fixed widths, arbitrary keys are nonempty, and
descriptor keys are unique (spec §3). -/
def Element.wfB : Element → Bool
  | .descriptor t n c items =>
    (decide (t = OSType.descriptor) || decide (t = OSType.globalObject) ||
      decide (t = OSType.objectArray)) &&
    ustrWF n && keyWF c && decide (items.length < 4294967296) &&
    decide ((items.map Prod.fst).Nodup) && wfItems items
  | .list t items =>
    (decide (t = OSType.list) || decide (t = OSType.reference)) &&
    decide (items.length < 4294967296) && wfList items
  | .property n c k => ustrWF n && keyWF c && keyWF k
  | .unitFloat _ v => decide (v < 18446744073709551616)
  | .unitFloats _ vs =>
    decide (vs.length < 4294967296) &&
    vs.all (fun v => decide (v < 18446744073709551616))
  | .double v => decide (v < 18446744073709551616)
  | .classE t n c =>
    (decide (t = OSType.class1) || decide (t = OSType.class2) ||
      decide (t = OSType.class3)) && ustrWF n && keyWF c
  | .string t u =>
    (decide (t = OSType.string) || decide (t = OSType.name)) && ustrWF u
  | .enumeratedReference n c t e => ustrWF n && keyWF c && keyWF t && keyWF e
  | .offset n c v => ustrWF n && keyWF c && decide (v < 4294967296)
  | .boolean _ => true
  | .largeInteger v =>
    decide (-9223372036854775808 ≤ v) && decide (v < 9223372036854775808)
  | .integer t v =>
    (decide (t = OSType.integer) || decide (t = OSType.identifier) ||
      decide (t = OSType.index)) &&
    decide (-2147483648 ≤ v) && decide (v < 2147483648)
  | .enum t e => keyWF t && keyWF e
  | .rawData t b =>
    (decide (t = OSType.rawData) || decide (t = OSType.alias) ||
      decide (t = OSType.path)) && bytesWF b

/-- Well-formedness of a descriptor entry list. -/
def wfItems : List (DKey × Element) → Bool
  | [] => true
  | (k, v) :: rest => keyWF k && v.wfB && wfItems rest

/-- Well-formedness of a list of elements. -/
def wfList : List Element → Bool
  | [] => true
  | v :: rest => v.wfB && wfList rest

end

/-- Apply a retag to the element of a decode result (identity on errors):
the relation between an alias class's `read` and its parent's `read`. -/
def retagRes (t : OSType) (r : Except PError (Element × ByteSeq)) :
    Except PError (Element × ByteSeq) :=
  match r with
  | .error e => .error e
  | .ok (v, rest) => .ok (v.retag t, rest)

/-- A demonstration element exercising nesting, a list, aliases and both
key forms. -/
def demoElement : Element :=
  .descriptor .descriptor [76] (.known .null)
    [(.raw [78, 109, 32, 32], .string .string [76, 97, 121, 101, 114, 32, 49]),
     (.known .name, .list .list [.integer .integer 5, .boolean true]),
     (.raw [97, 98, 99, 100], .descriptor .globalObject [] (.known .null) [])]

theorem beNat_u32be (n : Nat) (h : n < 4294967296) : beNat (u32be n) = n := by
  simp [beNat, u32be, List.foldl]
  omega

theorem beNat_u64be (n : Nat) (h : n < 18446744073709551616) :
    beNat (u64be n) = n := by
  simp [beNat, u64be, List.foldl]
  omega

theorem read_fmt_bytes_append (n : Nat) (b rest : ByteSeq) (h : b.length = n) :
    read_fmt_bytes n (b ++ rest) = .ok (b, rest) := by
  simp only [read_fmt_bytes, List.length_append, h]
  rw [if_neg (by omega), List.take_left' h, List.drop_left' h]

theorem read_fmt_I_append (n : Nat) (rest : ByteSeq) (h : n < 4294967296) :
    read_fmt_I (u32be n ++ rest) = .ok (n, rest) := by
  have hl : (u32be n).length = 4 := by simp [u32be]
  simp only [read_fmt_I, read_fmt_bytes_append 4 (u32be n) rest hl]
  rw [beNat_u32be n h]

theorem sign32_i32be (v : Int) (h1 : -2147483648 ≤ v) (h2 : v < 2147483648) :
    sign32 (beNat (i32be v)) = v := by
  rw [i32be, beNat_u32be _ (by omega)]
  simp only [sign32]
  omega

theorem sign64_i64be (v : Int) (h1 : -9223372036854775808 ≤ v)
    (h2 : v < 9223372036854775808) : sign64 (beNat (i64be v)) = v := by
  rw [i64be, beNat_u64be _ (by omega)]
  simp only [sign64]
  omega

theorem bytesOfUnits_length (u : UString) :
    (bytesOfUnits u).length = 2 * u.length := by
  induction u with
  | nil => rfl
  | cons a rest ih => simp [bytesOfUnits, ih]; omega

theorem unitsOfBytes_bytesOfUnits (u : UString)
    (h : ∀ c ∈ u, c < 65536) : unitsOfBytes (bytesOfUnits u) = u := by
  induction u with
  | nil => rfl
  | cons a rest ih =>
    have ha : a < 65536 := h a (by simp)
    simp only [bytesOfUnits, unitsOfBytes]
    rw [ih (fun c hc => h c (by simp [hc]))]
    have : a / 256 % 256 * 256 + a % 256 = a := by omega
    rw [this]

theorem read_unicode_string_append (p : Bool) (u : UString) (rest : ByteSeq)
    (h : ustrWF u = true) :
    read_unicode_string p ((write_unicode_string p u).1 ++ rest) =
      .ok (u, rest) := by
  have hlen : u.length < 4294967296 := by
    simp only [ustrWF, Bool.and_eq_true, decide_eq_true_eq] at h
    exact h.1
  have hall : ∀ c ∈ u, c < 65536 := by
    simp only [ustrWF, Bool.and_eq_true, List.all_eq_true,
      decide_eq_true_eq] at h
    exact h.2
  have hb : (bytesOfUnits u).length = 2 * u.length := bytesOfUnits_length u
  have hp : (List.replicate (if p then padLen (4 + 2 * u.length) else 0)
      (0 : Nat)).length = (if p then padLen (4 + 2 * u.length) else 0) := by
    simp
  simp only [write_unicode_string, List.append_assoc]
  rw [read_unicode_string]
  simp only [read_fmt_I_append u.length _ hlen]
  rw [if_neg (by simp only [List.length_append, hb]; omega)]
  rw [List.take_left' hb, List.drop_left' hb,
    unitsOfBytes_bytesOfUnits u hall]
  rw [if_neg (by simp only [List.length_append, hp]; omega)]
  rw [List.drop_left' hp]

theorem descriptorClassID_ofCode_code (c : DescriptorClassID) :
    DescriptorClassID.ofCode c.code = some c := by
  cases c <;> rfl

theorem osType_ofCode_code (t : OSType) : OSType.ofCode t.code = some t := by
  cases t <;> rfl

theorem osType_code_length (t : OSType) : t.code.length = 4 := by
  cases t <;> rfl

theorem read_length_and_key_append (k : DKey) (rest : ByteSeq)
    (h : keyWF k = true) :
    read_length_and_key ((write_length_and_key k).1 ++ rest) =
      .ok (k, false, rest) := by
  match k with
  | .known c =>
    have hc : c.code.length = 4 := by cases c <;> rfl
    simp only [write_length_and_key, List.append_assoc]
    rw [read_length_and_key]
    simp only [read_fmt_I_append 0 _ (by omega)]
    simp [List.take_left' hc, List.drop_left' hc, descriptorClassID_ofCode_code]
  | .raw b =>
    simp only [keyWF, Bool.and_eq_true, decide_eq_true_eq, bytesWF] at h
    obtain ⟨hne, hlt, _⟩ := h
    have hl : b.length ≠ 0 := by
      intro h0
      exact hne (List.eq_nil_of_length_eq_zero h0)
    simp only [write_length_and_key, List.append_assoc]
    rw [read_length_and_key]
    simp only [read_fmt_I_append b.length _ hlt]
    simp [hl, List.take_left, List.drop_left]

theorem read_length_block_append (b : ByteSeq) (rest : ByteSeq)
    (h : b.length < 4294967296) :
    read_length_block ((write_length_block b).1 ++ rest) = .ok (b, rest) := by
  simp only [write_length_block, List.append_assoc]
  rw [read_length_block]
  simp only [read_fmt_I_append b.length _ h]
  rw [if_neg (by simp only [List.length_append]; omega)]
  rw [List.take_left, List.drop_left]

theorem map_fst_odUpdate (m : List (DKey × Element)) (k : DKey) (v : Element) :
    (odUpdate m k v).map Prod.fst =
      if m.any (fun p => decide (p.1 = k)) then m.map Prod.fst
      else m.map Prod.fst ++ [k] := by
  unfold odUpdate
  split
  case isTrue h =>
    simp only [if_pos h, List.map_map]
    congr 1
    funext p
    by_cases hp : p.1 = k <;> simp [hp]
  case isFalse h => simp only [if_neg h, List.map_append, List.map_cons,
    List.map_nil]

theorem nodup_map_fst_odUpdate (m : List (DKey × Element)) (k : DKey)
    (v : Element) (h : (m.map Prod.fst).Nodup) :
    ((odUpdate m k v).map Prod.fst).Nodup := by
  rw [map_fst_odUpdate]
  split
  case isTrue => exact h
  case isFalse hany =>
    have hk : k ∉ m.map Prod.fst := by
      intro hmem
      obtain ⟨p, hp, hfst⟩ := List.mem_map.mp hmem
      exact hany (List.any_eq_true.mpr ⟨p, hp, by simp [hfst]⟩)
    simp [List.nodup_append, h, hk]

theorem toOrderedDict_nodup (l : List (DKey × Element)) :
    ((toOrderedDict l).map Prod.fst).Nodup := by
  suffices haux : ∀ (l acc : List (DKey × Element)), (acc.map Prod.fst).Nodup →
      ((List.foldl (fun m kv => odUpdate m kv.1 kv.2) acc l).map
        Prod.fst).Nodup by
    exact haux l [] (by simp)
  intro l
  induction l with
  | nil => intro acc h; simpa using h
  | cons kv tl ih =>
    intro acc h
    exact ih (odUpdate acc kv.1 kv.2) (nodup_map_fst_odUpdate acc kv.1 kv.2 h)

theorem toOrderedDict_self (l : List (DKey × Element))
    (h : (l.map Prod.fst).Nodup) : toOrderedDict l = l := by
  suffices haux : ∀ (l acc : List (DKey × Element)),
      (((acc ++ l).map Prod.fst)).Nodup →
      List.foldl (fun m kv => odUpdate m kv.1 kv.2) acc l = acc ++ l by
    have := haux l [] (by simpa using h)
    simpa [toOrderedDict] using this
  intro l
  induction l with
  | nil => intro acc _; simp
  | cons kv tl ih =>
    intro acc hnd
    have hk : kv.1 ∉ acc.map Prod.fst := by
      intro hmem
      rw [List.map_append, List.nodup_append] at hnd
      have hkl : kv.1 ∈ (kv :: tl).map Prod.fst := by simp
      exact hnd.2.2 hmem hkl
    have hany : ¬ acc.any (fun p => decide (p.1 = kv.1)) = true := by
      intro hcontra
      obtain ⟨p, hp, hfst⟩ := List.any_eq_true.mp hcontra
      simp only [decide_eq_true_eq] at hfst
      exact hk (List.mem_map.mpr ⟨p, hp, hfst⟩)
    simp only [List.foldl_cons]
    rw [show odUpdate acc kv.1 kv.2 = acc ++ [kv] by
      simp only [odUpdate, if_neg hany]]
    rw [ih (acc ++ [kv]) (by simpa using hnd)]
    simp

theorem depth_pos (v : Element) : 1 ≤ v.depth := by
  cases v <;> simp [Element.depth]

theorem depthItems_bound (items : List (DKey × Element)) :
    ∀ kv ∈ items, (kv.2 : Element).depth ≤ depthItems items := by
  induction items with
  | nil => intro kv h; cases h
  | cons hd tl ih =>
    intro kv h
    rcases List.mem_cons.mp h with h1 | h2
    · subst h1
      obtain ⟨k, w⟩ := kv
      simp [depthItems, Nat.le_max_left]
    · calc (kv.2 : Element).depth ≤ depthItems tl := ih kv h2
        _ ≤ depthItems (hd :: tl) := by
          obtain ⟨k, w⟩ := hd
          simp [depthItems, Nat.le_max_right]

theorem depthList_bound (items : List Element) :
    ∀ v ∈ items, (v : Element).depth ≤ depthList items := by
  induction items with
  | nil => intro v h; cases h
  | cons hd tl ih =>
    intro v h
    rcases List.mem_cons.mp h with h1 | h2
    · subst h1; simp [depthList, Nat.le_max_left]
    · calc (v : Element).depth ≤ depthList tl := ih v h2
        _ ≤ depthList (hd :: tl) := by simp [depthList, Nat.le_max_right]

theorem doubleRead_append (v : Nat) (rest : ByteSeq)
    (h : v < 18446744073709551616) :
    doubleRead (u64be v ++ rest) = .ok (.double v, rest) := by
  rw [doubleRead]
  simp only [read_fmt_bytes_append 8 (u64be v) rest (by simp [u64be])]
  rw [beNat_u64be v h]

theorem boolRead_append (v : Bool) (rest : ByteSeq) :
    boolRead ([if v then 1 else 0] ++ rest) = .ok (.boolean v, rest) := by
  rw [boolRead]
  simp only [read_fmt_bytes_append 1 [if v then 1 else 0] rest (by simp)]
  cases v <;> simp [beNat]

theorem integerRead_append (t : OSType) (v : Int) (rest : ByteSeq)
    (h1 : -2147483648 ≤ v) (h2 : v < 2147483648) :
    integerRead t (i32be v ++ rest) = .ok (.integer t v, rest) := by
  rw [integerRead]
  simp only [i32be]
  simp only [read_fmt_bytes_append 4 (u32be _) rest (by simp [u32be])]
  rw [show beNat (u32be ((v % 4294967296).toNat)) =
    beNat (i32be v) from by rw [i32be]]
  rw [sign32_i32be v h1 h2]

theorem largeIntegerRead_append (v : Int) (rest : ByteSeq)
    (h1 : -9223372036854775808 ≤ v) (h2 : v < 9223372036854775808) :
    largeIntegerRead (i64be v ++ rest) = .ok (.largeInteger v, rest) := by
  rw [largeIntegerRead]
  simp only [i64be]
  simp only [read_fmt_bytes_append 8 (u64be _) rest (by simp [u64be])]
  rw [show beNat (u64be ((v % 18446744073709551616).toNat)) =
    beNat (i64be v) from by rw [i64be]]
  rw [sign64_i64be v h1 h2]

theorem unitFloatType_code_length (u : UnitFloatType) : u.code.length = 4 := by
  cases u <;> rfl

theorem unitFloatType_ofCode_code (u : UnitFloatType) :
    UnitFloatType.ofCode u.code = some u := by
  cases u <;> rfl

theorem unitFloatRead_append (u : UnitFloatType) (v : Nat) (rest : ByteSeq)
    (h : v < 18446744073709551616) :
    unitFloatRead (u.code ++ (u64be v ++ rest)) =
      .ok (.unitFloat u v, rest) := by
  have hc4 : u.code.length = 4 := unitFloatType_code_length u
  have h8 : (u64be v).length = 8 := by simp [u64be]
  have hlen : (u.code ++ (u64be v ++ rest)).length = 12 + rest.length := by
    simp [hc4, h8]; omega
  have hdrop12 : (u.code ++ (u64be v ++ rest)).drop 12 = rest := by
    rw [← List.append_assoc]
    exact List.drop_left' (by simp [hc4, h8])
  have htake8 : ((u.code ++ (u64be v ++ rest)).drop 4).take 8 = u64be v := by
    rw [List.drop_left' hc4, List.take_left' h8]
  rw [unitFloatRead, if_neg (by rw [hlen]; omega)]
  rw [List.take_left' hc4]
  simp only [unitFloatType_ofCode_code]
  rw [htake8, hdrop12, beNat_u64be v h]

theorem writeDoubles_length (vs : List Nat) :
    (writeDoubles vs).length = 8 * vs.length := by
  induction vs with
  | nil => rfl
  | cons v tl ih => simp [writeDoubles, u64be, ih]; omega

theorem readDoubles_append (vs : List Nat) (rest : ByteSeq)
    (h : ∀ v ∈ vs, v < 18446744073709551616) :
    readDoubles vs.length (writeDoubles vs ++ rest) = vs := by
  induction vs generalizing rest with
  | nil => rfl
  | cons v tl ih =>
    have h8 : (u64be v).length = 8 := by simp [u64be]
    simp only [List.length_cons, writeDoubles, readDoubles, List.append_assoc]
    rw [List.take_left' h8, List.drop_left' h8]
    rw [beNat_u64be v (h v (by simp))]
    rw [ih rest (fun w hw => h w (by simp [hw]))]

theorem unitFloatsRead_append (u : UnitFloatType) (vs : List Nat)
    (rest : ByteSeq) (hlen : vs.length < 4294967296)
    (hv : ∀ v ∈ vs, v < 18446744073709551616) :
    unitFloatsRead (u.code ++ (u32be vs.length ++ (writeDoubles vs ++ rest))) =
      .ok (.unitFloats u vs, rest) := by
  have hc4 : u.code.length = 4 := unitFloatType_code_length u
  have h4 : (u32be vs.length).length = 4 := by simp [u32be]
  have hwd : (writeDoubles vs).length = 8 * vs.length := writeDoubles_length vs
  have hstream : (u.code ++ (u32be vs.length ++ (writeDoubles vs ++
      rest))).length = 8 + 8 * vs.length + rest.length := by
    simp [hc4, h4, hwd]; omega
  have hdrop8 : (u.code ++ (u32be vs.length ++ (writeDoubles vs ++
      rest))).drop 8 = writeDoubles vs ++ rest := by
    rw [← List.append_assoc]
    exact List.drop_left' (by simp [hc4, h4])
  have hcount : beNat (((u.code ++ (u32be vs.length ++ (writeDoubles vs ++
      rest))).drop 4).take 4) = vs.length := by
    rw [List.drop_left' hc4, List.take_left' h4, beNat_u32be _ hlen]
  rw [unitFloatsRead, if_neg (by rw [hstream]; omega)]
  simp only [List.take_left' hc4, hcount, hdrop8, hwd,
    unitFloatType_ofCode_code]
  rw [if_neg (by simp [hwd])]
  rw [readDoubles_append vs rest hv]
  rw [List.drop_left' hwd]

theorem rawDataRead_append (t : OSType) (b : ByteSeq) (rest : ByteSeq)
    (h : b.length < 4294967296) :
    rawDataRead t ((write_length_block b).1 ++ rest) =
      .ok (.rawData t b, rest) := by
  rw [rawDataRead]
  simp only [read_length_block_append b rest h]

theorem stringRead_append (t : OSType) (u : UString) (rest : ByteSeq)
    (h : ustrWF u = true) :
    stringRead t ((write_unicode_string true u).1 ++ rest) =
      .ok (.string t u, rest) := by
  rw [stringRead]
  simp only [read_unicode_string_append true u rest h]

theorem classRead_append (t : OSType) (n : UString) (c : DKey) (rest : ByteSeq)
    (hn : ustrWF n = true) (hc : keyWF c = true) :
    classRead t ((write_unicode_string false n).1 ++
      ((write_length_and_key c).1 ++ rest)) = .ok (.classE t n c, rest) := by
  rw [classRead]
  simp only [read_unicode_string_append false n _ hn]
  simp only [read_length_and_key_append c rest hc]

theorem propertyRead_append (n : UString) (c k : DKey) (rest : ByteSeq)
    (hn : ustrWF n = true) (hc : keyWF c = true) (hk : keyWF k = true) :
    propertyRead ((write_unicode_string false n).1 ++
      ((write_length_and_key c).1 ++ ((write_length_and_key k).1 ++ rest))) =
      .ok (.property n c k, rest) := by
  rw [propertyRead]
  simp only [read_unicode_string_append false n _ hn]
  simp only [read_length_and_key_append c _ hc]
  simp only [read_length_and_key_append k rest hk]

theorem enumRead_append (t e : DKey) (rest : ByteSeq)
    (ht : keyWF t = true) (he : keyWF e = true) :
    enumRead ((write_length_and_key t).1 ++ ((write_length_and_key e).1 ++
      rest)) = .ok (.enum t e, rest) := by
  rw [enumRead]
  simp only [read_length_and_key_append t _ ht]
  simp only [read_length_and_key_append e rest he]

theorem enumeratedReferenceRead_append (n : UString) (c t e : DKey)
    (rest : ByteSeq) (hn : ustrWF n = true) (hc : keyWF c = true)
    (ht : keyWF t = true) (he : keyWF e = true) :
    enumeratedReferenceRead ((write_unicode_string false n).1 ++
      ((write_length_and_key c).1 ++ ((write_length_and_key t).1 ++
      ((write_length_and_key e).1 ++ rest)))) =
      .ok (.enumeratedReference n c t e, rest) := by
  rw [enumeratedReferenceRead]
  simp only [read_unicode_string_append false n _ hn]
  simp only [read_length_and_key_append c _ hc]
  simp only [read_length_and_key_append t _ ht]
  simp only [read_length_and_key_append e rest he]

theorem offsetRead_append (n : UString) (c : DKey) (v : Nat) (rest : ByteSeq)
    (hn : ustrWF n = true) (hc : keyWF c = true) (hv : v < 4294967296) :
    offsetRead ((write_unicode_string false n).1 ++
      ((write_length_and_key c).1 ++ (u32be v ++ rest))) =
      .ok (.offset n c v, rest) := by
  rw [offsetRead]
  simp only [read_unicode_string_append false n _ hn]
  simp only [read_length_and_key_append c _ hc]
  simp only [read_fmt_I_append v rest hv]

theorem wfItems_mem (items : List (DKey × Element))
    (h : wfItems items = true) :
    ∀ kv ∈ items, keyWF kv.1 = true ∧ (kv.2 : Element).wfB = true := by
  induction items with
  | nil => intro kv hkv; cases hkv
  | cons hd tl ih =>
    obtain ⟨k, w⟩ := hd
    simp only [wfItems, Bool.and_eq_true] at h
    intro kv hkv
    rcases List.mem_cons.mp hkv with h1 | h2
    · subst h1; exact ⟨h.1.1, h.1.2⟩
    · exact ih h.2 kv h2

theorem wfList_mem (items : List Element) (h : wfList items = true) :
    ∀ v ∈ items, (v : Element).wfB = true := by
  induction items with
  | nil => intro v hv; cases hv
  | cons hd tl ih =>
    simp only [wfList, Bool.and_eq_true] at h
    intro v hv
    rcases List.mem_cons.mp hv with h1 | h2
    · subst h1; exact h.1
    · exact ih h.2 v h2

theorem decodeDescItems_append
    (dec : OSType → ByteSeq → Except PError (Element × ByteSeq))
    (items : List (DKey × Element)) (rest : ByteSeq)
    (hdec : ∀ kv ∈ items, ∀ r2 : ByteSeq,
      dec (Element.ostype kv.2) ((writeBody kv.2).1 ++ r2) = .ok (kv.2, r2))
    (hkeys : ∀ kv ∈ items, keyWF kv.1 = true) :
    decodeDescItems dec items.length ((writeDescItems items).1 ++ rest) =
      .ok (items, rest) := by
  revert hdec hkeys
  induction items generalizing rest with
  | nil => intro hdec hkeys; simp [decodeDescItems, writeDescItems]
  | cons kv tl ih =>
    intro hdec hkeys
    obtain ⟨k, w⟩ := kv
    have hcode : (Element.ostype w).code.length = 4 := osType_code_length _
    simp only [writeDescItems, List.length_cons, List.append_assoc]
    simp only [decodeDescItems]
    simp only [read_length_and_key_append k _ (hkeys (k, w) (by simp))]
    rw [List.take_left' hcode, List.drop_left' hcode]
    simp only [osType_ofCode_code]
    simp only [hdec (k, w) (by simp)]
    simp only [recordEntry]
    rw [ih rest (fun kv2 h2 => hdec kv2 (by simp [h2]))
      (fun kv2 h2 => hkeys kv2 (by simp [h2]))]

theorem decodeListItems_append
    (dec : OSType → ByteSeq → Except PError (Element × ByteSeq))
    (items : List Element) (rest : ByteSeq)
    (hdec : ∀ v ∈ items, ∀ r2 : ByteSeq,
      dec (Element.ostype v) ((writeBody v).1 ++ r2) = .ok (v, r2)) :
    decodeListItems dec items.length ((writeListItems items).1 ++ rest) =
      .ok (items, rest) := by
  revert hdec
  induction items generalizing rest with
  | nil => intro hdec; simp [decodeListItems, writeListItems]
  | cons v tl ih =>
    intro hdec
    have hcode : (Element.ostype v).code.length = 4 := osType_code_length _
    simp only [writeListItems, List.length_cons, List.append_assoc]
    simp only [decodeListItems]
    rw [List.take_left' hcode, List.drop_left' hcode]
    simp only [osType_ofCode_code]
    simp only [hdec v (by simp)]
    rw [ih rest (fun v2 h2 => hdec v2 (by simp [h2]))]

theorem descriptorRead_append
    (dec : OSType → ByteSeq → Except PError (Element × ByteSeq)) (t : OSType)
    (n : UString) (c : DKey) (items : List (DKey × Element)) (rest : ByteSeq)
    (hn : ustrWF n = true) (hc : keyWF c = true)
    (hcnt : items.length < 4294967296)
    (hnodup : (items.map Prod.fst).Nodup)
    (hdec : ∀ kv ∈ items, ∀ r2 : ByteSeq,
      dec (Element.ostype kv.2) ((writeBody kv.2).1 ++ r2) = .ok (kv.2, r2))
    (hkeys : ∀ kv ∈ items, keyWF kv.1 = true) :
    descriptorRead dec t ((write_unicode_string true n).1 ++
      ((write_length_and_key c).1 ++ (u32be items.length ++
      ((writeDescItems items).1 ++ rest)))) =
      .ok (.descriptor t n c items, rest) := by
  rw [descriptorRead, descriptorReadCore]
  simp only [read_unicode_string_append true n _ hn]
  simp only [read_length_and_key_append c _ hc]
  simp only [read_fmt_I_append items.length _ hcnt]
  simp only [decodeDescItems_append dec items rest hdec hkeys]
  rw [toOrderedDict_self items hnodup]

theorem listRead_append
    (dec : OSType → ByteSeq → Except PError (Element × ByteSeq)) (t : OSType)
    (items : List Element) (rest : ByteSeq)
    (hcnt : items.length < 4294967296)
    (hdec : ∀ v ∈ items, ∀ r2 : ByteSeq,
      dec (Element.ostype v) ((writeBody v).1 ++ r2) = .ok (v, r2)) :
    listRead dec t (u32be items.length ++ ((writeListItems items).1 ++ rest)) =
      .ok (.list t items, rest) := by
  rw [listRead]
  simp only [read_fmt_I_append items.length _ hcnt]
  simp only [decodeListItems_append dec items rest hdec]

theorem decodeBody_writeBody_aux :
    ∀ (N : Nat) (v : Element), v.depth ≤ N → v.wfB = true →
      ∀ (f : Nat), v.depth ≤ f → ∀ (rest : ByteSeq),
        decodeBody f v.ostype ((writeBody v).1 ++ rest) = .ok (v, rest) := by
  intro N
  induction N with
  | zero =>
    intro v hd
    have := depth_pos v
    omega
  | succ N ih =>
    intro v hd hwf f hf rest
    have hfpos : 1 ≤ f := le_trans (depth_pos v) hf
    obtain ⟨g, rfl⟩ : ∃ g, f = g + 1 := ⟨f - 1, by omega⟩
    cases v with
    | descriptor t n c items =>
      simp only [Element.wfB, Bool.and_eq_true, Bool.or_eq_true,
        decide_eq_true_eq] at hwf
      obtain ⟨⟨⟨⟨⟨ht, hn⟩, hc⟩, hcnt⟩, hnd⟩, hwfi⟩ := hwf
      have hdepth : depthItems items + 1 = Element.depth
          (.descriptor t n c items) := by
        simp [Element.depth]
      have hdec : ∀ kv ∈ items, ∀ r2 : ByteSeq,
          decodeBody g (Element.ostype kv.2) ((writeBody kv.2).1 ++ r2) =
            .ok (kv.2, r2) := by
        intro kv hkv r2
        have hdkv : (kv.2 : Element).depth ≤ depthItems items :=
          depthItems_bound items kv hkv
        exact ih kv.2 (by omega) (wfItems_mem items hwfi kv hkv).2 g
          (by omega) r2
      have hkeys : ∀ kv ∈ items, keyWF kv.1 = true :=
        fun kv hkv => (wfItems_mem items hwfi kv hkv).1
      rcases ht with (rfl | rfl) | rfl <;>
        (simp only [Element.ostype, decodeBody, writeBody, write_fmt_I,
          List.append_assoc]
         exact descriptorRead_append (decodeBody g) _ n c items rest hn hc
           hcnt hnd hdec hkeys)
    | list t items =>
      simp only [Element.wfB, Bool.and_eq_true, Bool.or_eq_true,
        decide_eq_true_eq] at hwf
      obtain ⟨⟨ht, hcnt⟩, hwfl⟩ := hwf
      have hdepth : depthList items + 1 = Element.depth (.list t items) := by
        simp [Element.depth]
      have hdec : ∀ v ∈ items, ∀ r2 : ByteSeq,
          decodeBody g (Element.ostype v) ((writeBody v).1 ++ r2) =
            .ok (v, r2) := by
        intro v hv r2
        have hdkv : (v : Element).depth ≤ depthList items :=
          depthList_bound items v hv
        exact ih v (by omega) (wfList_mem items hwfl v hv) g (by omega) r2
      rcases ht with rfl | rfl <;>
        (simp only [Element.ostype, decodeBody, writeBody, write_fmt_I,
          List.append_assoc]
         exact listRead_append (decodeBody g) _ items rest hcnt hdec)
    | property n c k =>
      simp only [Element.wfB, Bool.and_eq_true] at hwf
      obtain ⟨⟨hn, hc⟩, hk⟩ := hwf
      simp only [Element.ostype, decodeBody, writeBody, List.append_assoc]
      exact propertyRead_append n c k rest hn hc hk
    | unitFloat u v =>
      simp only [Element.wfB, decide_eq_true_eq] at hwf
      simp only [Element.ostype, decodeBody, writeBody, List.append_assoc]
      exact unitFloatRead_append u v rest hwf
    | unitFloats u vs =>
      simp only [Element.wfB, Bool.and_eq_true, List.all_eq_true,
        decide_eq_true_eq] at hwf
      obtain ⟨hlen, hv⟩ := hwf
      simp only [Element.ostype, decodeBody, writeBody, List.append_assoc]
      exact unitFloatsRead_append u vs rest hlen hv
    | double v =>
      simp only [Element.wfB, decide_eq_true_eq] at hwf
      simp only [Element.ostype, decodeBody, writeBody]
      exact doubleRead_append v rest hwf
    | classE t n c =>
      simp only [Element.wfB, Bool.and_eq_true, Bool.or_eq_true,
        decide_eq_true_eq] at hwf
      obtain ⟨⟨ht, hn⟩, hc⟩ := hwf
      rcases ht with (rfl | rfl) | rfl <;>
        (simp only [Element.ostype, decodeBody, writeBody, List.append_assoc]
         exact classRead_append _ n c rest hn hc)
    | string t u =>
      simp only [Element.wfB, Bool.and_eq_true, Bool.or_eq_true,
        decide_eq_true_eq] at hwf
      obtain ⟨ht, hu⟩ := hwf
      rcases ht with rfl | rfl <;>
        (simp only [Element.ostype, decodeBody, writeBody]
         exact stringRead_append _ u rest hu)
    | enumeratedReference n c t e =>
      simp only [Element.wfB, Bool.and_eq_true] at hwf
      obtain ⟨⟨⟨hn, hc⟩, ht⟩, he⟩ := hwf
      simp only [Element.ostype, decodeBody, writeBody, List.append_assoc]
      exact enumeratedReferenceRead_append n c t e rest hn hc ht he
    | offset n c v =>
      simp only [Element.wfB, Bool.and_eq_true, decide_eq_true_eq] at hwf
      obtain ⟨⟨hn, hc⟩, hv⟩ := hwf
      simp only [Element.ostype, decodeBody, writeBody, write_fmt_I,
        List.append_assoc]
      exact offsetRead_append n c v rest hn hc hv
    | boolean v =>
      simp only [Element.ostype, decodeBody, writeBody]
      exact boolRead_append v rest
    | largeInteger v =>
      simp only [Element.wfB, Bool.and_eq_true, decide_eq_true_eq] at hwf
      simp only [Element.ostype, decodeBody, writeBody]
      exact largeIntegerRead_append v rest hwf.1 hwf.2
    | integer t v =>
      simp only [Element.wfB, Bool.and_eq_true, Bool.or_eq_true,
        decide_eq_true_eq] at hwf
      obtain ⟨⟨ht, h1⟩, h2⟩ := hwf
      rcases ht with (rfl | rfl) | rfl <;>
        (simp only [Element.ostype, decodeBody, writeBody]
         exact integerRead_append _ v rest h1 h2)
    | enum t e =>
      simp only [Element.wfB, Bool.and_eq_true] at hwf
      obtain ⟨ht, he⟩ := hwf
      simp only [Element.ostype, decodeBody, writeBody, List.append_assoc]
      exact enumRead_append t e rest ht he
    | rawData t b =>
      simp only [Element.wfB, Bool.and_eq_true, Bool.or_eq_true,
        decide_eq_true_eq, bytesWF] at hwf
      obtain ⟨ht, hb, _⟩ := hwf
      rcases ht with (rfl | rfl) | rfl <;>
        (simp only [Element.ostype, decodeBody, writeBody]
         exact rawDataRead_append _ b rest hb)

theorem descriptorClassID_code_length (c : DescriptorClassID) :
    c.code.length = 4 := by
  cases c <;> rfl

theorem write_unicode_string_length (p : Bool) (u : UString) :
    (write_unicode_string p u).1.length = (write_unicode_string p u).2 := by
  simp [write_unicode_string, bytesOfUnits_length u, u32be]
  omega

theorem write_length_and_key_length (k : DKey) :
    (write_length_and_key k).1.length = (write_length_and_key k).2 := by
  cases k with
  | known c => simp [write_length_and_key, u32be, descriptorClassID_code_length]
  | raw b => simp [write_length_and_key, u32be]; omega

theorem writeDescItems_count (items : List (DKey × Element))
    (h : ∀ kv ∈ items,
      ((writeBody kv.2).1.length = (writeBody kv.2).2)) :
    (writeDescItems items).1.length = (writeDescItems items).2 := by
  induction items with
  | nil => simp [writeDescItems]
  | cons kv tl ih =>
    obtain ⟨k, w⟩ := kv
    simp only [writeDescItems, List.length_append]
    rw [write_length_and_key_length k, h (k, w) (by simp),
      ih (fun kv2 h2 => h kv2 (by simp [h2]))]

theorem writeListItems_count (items : List Element)
    (h : ∀ v ∈ items, ((writeBody v).1.length = (writeBody v).2)) :
    (writeListItems items).1.length = (writeListItems items).2 := by
  induction items with
  | nil => simp [writeListItems]
  | cons v tl ih =>
    simp only [writeListItems, List.length_append]
    rw [h v (by simp), ih (fun v2 h2 => h v2 (by simp [h2]))]

theorem writeBody_count :
    ∀ (N : Nat) (v : Element), v.depth ≤ N →
      (writeBody v).1.length = (writeBody v).2 := by
  intro N
  induction N with
  | zero =>
    intro v hd
    have := depth_pos v
    omega
  | succ N ih =>
    intro v hd
    cases v with
    | descriptor t n c items =>
      have hitems : ∀ kv ∈ items,
          ((writeBody (kv.2 : Element)).1.length = (writeBody kv.2).2) := by
        intro kv hkv
        have hdkv := depthItems_bound items kv hkv
        have : Element.depth (.descriptor t n c items) =
            depthItems items + 1 := by simp [Element.depth]
        exact ih kv.2 (by omega)
      simp only [writeBody, List.length_append, write_fmt_I]
      rw [write_unicode_string_length, write_length_and_key_length,
        writeDescItems_count items hitems]
      simp [u32be]
    | list t items =>
      have hitems : ∀ v ∈ items,
          ((writeBody (v : Element)).1.length = (writeBody v).2) := by
        intro v hv
        have hdkv := depthList_bound items v hv
        have : Element.depth (.list t items) = depthList items + 1 := by
          simp [Element.depth]
        exact ih v (by omega)
      simp only [writeBody, List.length_append, write_fmt_I]
      rw [writeListItems_count items hitems]
      simp [u32be]
    | property n c k =>
      simp only [writeBody, List.length_append]
      rw [write_unicode_string_length, write_length_and_key_length,
        write_length_and_key_length]
    | unitFloat u v =>
      simp [writeBody, u64be, unitFloatType_code_length]
    | unitFloats u vs =>
      simp [writeBody, u32be, unitFloatType_code_length]
      omega
    | double v => simp [writeBody, u64be]
    | classE t n c =>
      simp only [writeBody, List.length_append]
      rw [write_unicode_string_length, write_length_and_key_length]
    | string t u => exact write_unicode_string_length true u
    | enumeratedReference n c t e =>
      simp only [writeBody, List.length_append]
      rw [write_unicode_string_length, write_length_and_key_length,
        write_length_and_key_length, write_length_and_key_length]
    | offset n c v =>
      simp only [writeBody, List.length_append, write_fmt_I]
      rw [write_unicode_string_length, write_length_and_key_length]
      simp [u32be]
    | boolean v => simp [writeBody]
    | largeInteger v => simp [writeBody, i64be, u64be]
    | integer t v => simp [writeBody, i32be, u32be]
    | enum t e =>
      simp only [writeBody, List.length_append]
      rw [write_length_and_key_length, write_length_and_key_length]
    | rawData t b => simp [write_length_block, writeBody, u32be]; omega

theorem write_length_and_key_length_ge (k : DKey) :
    4 ≤ (write_length_and_key k).1.length := by
  cases k with
  | known c => simp [write_length_and_key, u32be]
  | raw b => simp [write_length_and_key, u32be]

theorem depthItems_le_writeDescItems (items : List (DKey × Element))
    (h : ∀ kv ∈ items,
      (kv.2 : Element).depth ≤ (writeBody kv.2).1.length) :
    depthItems items ≤ (writeDescItems items).1.length := by
  induction items with
  | nil => simp [depthItems, writeDescItems]
  | cons kv tl ih =>
    obtain ⟨k, w⟩ := kv
    simp only [depthItems, writeDescItems, List.length_append,
      Nat.max_le]
    constructor
    · have hw : (w : Element).depth ≤ (writeBody w).1.length :=
        h (k, w) (by simp)
      omega
    · have := ih (fun kv2 h2 => h kv2 (by simp [h2]))
      omega

theorem depthList_le_writeListItems (items : List Element)
    (h : ∀ v ∈ items, (v : Element).depth ≤ (writeBody v).1.length) :
    depthList items ≤ (writeListItems items).1.length := by
  induction items with
  | nil => simp [depthList, writeListItems]
  | cons v tl ih =>
    simp only [depthList, writeListItems, List.length_append, Nat.max_le]
    constructor
    · have hv : (v : Element).depth ≤ (writeBody v).1.length := h v (by simp)
      omega
    · have := ih (fun v2 h2 => h v2 (by simp [h2]))
      omega

theorem depth_le_tobytes :
    ∀ (N : Nat) (v : Element), v.depth ≤ N →
      v.depth ≤ (writeBody v).1.length := by
  intro N
  induction N with
  | zero =>
    intro v hd
    have := depth_pos v
    omega
  | succ N ih =>
    intro v hd
    cases v with
    | descriptor t n c items =>
      have hdv : Element.depth (.descriptor t n c items) =
          depthItems items + 1 := by simp [Element.depth]
      have hitems : ∀ kv ∈ items,
          (kv.2 : Element).depth ≤ (writeBody (kv.2 : Element)).1.length := by
        intro kv hkv
        have hdkv := depthItems_bound items kv hkv
        exact ih kv.2 (by omega)
      have h1 := depthItems_le_writeDescItems items hitems
      have h2 := write_length_and_key_length_ge c
      simp only [writeBody, List.length_append, write_fmt_I]
      rw [hdv]
      simp only [write_unicode_string_length]
      omega
    | list t items =>
      have hdv : Element.depth (.list t items) = depthList items + 1 := by
        simp [Element.depth]
      have hitems : ∀ v ∈ items,
          (v : Element).depth ≤ (writeBody (v : Element)).1.length := by
        intro v hv
        have hdkv := depthList_bound items v hv
        exact ih v (by omega)
      have h1 := depthList_le_writeListItems items hitems
      simp only [writeBody, List.length_append, write_fmt_I]
      rw [hdv]
      simp [u32be]
      omega
    | property n c k =>
      simp only [Element.depth, writeBody, write_unicode_string, write_fmt_I,
        List.length_append, u32be, List.length_cons, List.length_nil]
      omega
    | unitFloat u v =>
      simp [Element.depth, writeBody, unitFloatType_code_length, u64be]
    | unitFloats u vs =>
      simp only [Element.depth, writeBody, List.length_append, u32be,
        List.length_cons, List.length_nil, unitFloatType_code_length]
      omega
    | double v => simp [Element.depth, writeBody, u64be]
    | classE t n c =>
      simp only [Element.depth, writeBody, write_unicode_string, write_fmt_I,
        List.length_append, u32be, List.length_cons, List.length_nil]
      omega
    | string t u =>
      simp only [Element.depth, writeBody, write_unicode_string,
        List.length_append, u32be, List.length_cons, List.length_nil]
      omega
    | enumeratedReference n c t e =>
      simp only [Element.depth, writeBody, write_unicode_string, write_fmt_I,
        List.length_append, u32be, List.length_cons, List.length_nil]
      omega
    | offset n c v =>
      simp only [Element.depth, writeBody, write_unicode_string, write_fmt_I,
        List.length_append, u32be, List.length_cons, List.length_nil]
      omega
    | boolean v => simp [Element.depth, writeBody]
    | largeInteger v => simp [Element.depth, writeBody, i64be, u64be]
    | integer t v => simp [Element.depth, writeBody, i32be, u32be]
    | enum t e =>
      have h1 := write_length_and_key_length_ge t
      simp only [Element.depth, writeBody, List.length_append]
      omega
    | rawData t b => simp [Element.depth, writeBody, write_length_block, u32be]

theorem descriptorRead_retag
    (dec : OSType → ByteSeq → Except PError (Element × ByteSeq))
    (t t2 : OSType) (s : ByteSeq) :
    descriptorRead dec t2 s = retagRes t2 (descriptorRead dec t s) := by
  unfold descriptorRead
  cases h : descriptorReadCore dec s with
  | error e => rfl
  | ok p =>
    obtain ⟨⟨n, c, i⟩, r⟩ := p
    rfl

theorem listRead_retag
    (dec : OSType → ByteSeq → Except PError (Element × ByteSeq))
    (t t2 : OSType) (s : ByteSeq) :
    listRead dec t2 s = retagRes t2 (listRead dec t s) := by
  cases h1 : read_fmt_I s with
  | error e => simp only [listRead, h1, retagRes]
  | ok p1 =>
    obtain ⟨count, s₁⟩ := p1
    cases h2 : decodeListItems dec count s₁ with
    | error e => simp only [listRead, h1, h2, retagRes]
    | ok p2 =>
      obtain ⟨items, s₂⟩ := p2
      simp only [listRead, h1, h2, retagRes, Element.retag]

theorem classRead_retag (t t2 : OSType) (s : ByteSeq) :
    classRead t2 s = retagRes t2 (classRead t s) := by
  cases h1 : read_unicode_string false s with
  | error e => simp only [classRead, h1, retagRes]
  | ok p1 =>
    obtain ⟨n, s₁⟩ := p1
    cases h2 : read_length_and_key s₁ with
    | error e => simp only [classRead, h1, h2, retagRes]
    | ok p2 =>
      obtain ⟨c, w, s₂⟩ := p2
      simp only [classRead, h1, h2, retagRes, Element.retag]

theorem stringRead_retag (t t2 : OSType) (s : ByteSeq) :
    stringRead t2 s = retagRes t2 (stringRead t s) := by
  unfold stringRead
  cases h : read_unicode_string true s with
  | error e => rfl
  | ok p =>
    obtain ⟨u, s₁⟩ := p
    rfl

theorem integerRead_retag (t t2 : OSType) (s : ByteSeq) :
    integerRead t2 s = retagRes t2 (integerRead t s) := by
  unfold integerRead
  cases h : read_fmt_bytes 4 s with
  | error e => rfl
  | ok p =>
    obtain ⟨b, s₁⟩ := p
    rfl

theorem rawDataRead_retag (t t2 : OSType) (s : ByteSeq) :
    rawDataRead t2 s = retagRes t2 (rawDataRead t s) := by
  unfold rawDataRead
  cases h : read_length_block s with
  | error e => rfl
  | ok p =>
    obtain ⟨b, s₁⟩ := p
    rfl

/-- C2 counterexample: the key constructed directly as the arbitrary bytes
`b'null'` — whose bytes equal the 4-byte code of the well-known identifier
`NULL` — is NOT written in the compact form (length 0 plus the code):
`write_length_and_key` emits the arbitrary form, length 4 followed by the
bytes. -/
theorem c2_canonicalization_counterexample :
    DescriptorClassID.ofCode [110, 117, 108, 108] =
      some DescriptorClassID.null ∧
    write_length_and_key (DKey.raw [110, 117, 108, 108]) =
      ([0, 0, 0, 4] ++ [110, 117, 108, 108], 8) ∧
    ¬ (write_length_and_key (DKey.raw [110, 117, 108, 108])).1 =
      [0, 0, 0, 0] ++ [110, 117, 108, 108] := by
  refine ⟨by decide, by decide, by decide⟩

/-- C2 (amended): `write_length_and_key` writes the compact form (4-byte
length 0 followed by the canonical 4-byte code) exactly when the key is the
enumerated well-known identifier itself; a key constructed directly as
arbitrary bytes is always written as its byte-length followed by those
bytes, even when they equal a well-known code — and such a length-prefixed
key still reads back as the same raw key. -/
theorem c2_write_length_and_key :
    (∀ c : DescriptorClassID,
      write_length_and_key (DKey.known c) = ([0, 0, 0, 0] ++ c.code, 8)) ∧
    (∀ b : ByteSeq,
      write_length_and_key (DKey.raw b) = (u32be b.length ++ b,
        4 + b.length)) ∧
    (∀ (b : ByteSeq) (rest : ByteSeq), keyWF (DKey.raw b) = true →
      read_length_and_key ((write_length_and_key (DKey.raw b)).1 ++ rest) =
        .ok (DKey.raw b, false, rest)) := by
  refine ⟨fun c => rfl, fun b => rfl, fun b rest h =>
    read_length_and_key_append (DKey.raw b) rest h⟩

/-- C2 witness: the third conjunct applied at the concrete key
`b'abcd'`. -/
theorem c2_write_length_and_key_witness :
    keyWF (DKey.raw [97, 98, 99, 100]) = true ∧
    read_length_and_key
      ((write_length_and_key (DKey.raw [97, 98, 99, 100])).1 ++ [7]) =
      .ok (DKey.raw [97, 98, 99, 100], false, [7]) :=
  ⟨by decide, c2_write_length_and_key.2.2 [97, 98, 99, 100] [7] (by decide)⟩

/-- C3: when a Descriptor entry or a List item declares a 4-byte type tag
that is not registered in the `TYPES` registry, the decode loop fails with
exactly the unknown-tag error (carrying those tag bytes) — no other error
kind, and no skipping. -/
theorem c3_unknown_tag_rejection :
    (∀ (dec : OSType → ByteSeq → Except PError (Element × ByteSeq))
      (c : Nat) (s : ByteSeq) (key : DKey) (w : Bool) (s₁ : ByteSeq),
      read_length_and_key s = .ok (key, w, s₁) →
      OSType.ofCode (s₁.take 4) = none →
      decodeDescItems dec (c + 1) s = .error (.unknownTag (s₁.take 4))) ∧
    (∀ (dec : OSType → ByteSeq → Except PError (Element × ByteSeq))
      (c : Nat) (s : ByteSeq),
      OSType.ofCode (s.take 4) = none →
      decodeListItems dec (c + 1) s = .error (.unknownTag (s.take 4))) := by
  constructor
  · intro dec c s key w s₁ h1 h2
    simp only [decodeDescItems, h1, h2]
  · intro dec c s h
    simp only [decodeListItems, h]

/-- C3 witness: a descriptor entry whose key is the 4-byte literal `b'abcd'`
and whose declared tag bytes `[1,2,3,4]` match no registered tag. -/
theorem c3_unknown_tag_rejection_witness :
    read_length_and_key [0, 0, 0, 4, 97, 98, 99, 100, 1, 2, 3, 4] =
      .ok (DKey.raw [97, 98, 99, 100], false, [1, 2, 3, 4]) ∧
    OSType.ofCode (([1, 2, 3, 4] : ByteSeq).take 4) = none ∧
    decodeDescItems (decodeBody 1) 1
      [0, 0, 0, 4, 97, 98, 99, 100, 1, 2, 3, 4] =
      .error (.unknownTag (([1, 2, 3, 4] : ByteSeq).take 4)) :=
  ⟨by rfl, by decide,
    c3_unknown_tag_rejection.1 (decodeBody 1) 0
      [0, 0, 0, 4, 97, 98, 99, 100, 1, 2, 3, 4]
      (DKey.raw [97, 98, 99, 100]) false [1, 2, 3, 4] (by rfl) (by decide)⟩

/-- C4: when the 4-byte length is 0 and the following 4 bytes match no
well-known identifier, `read_length_and_key` succeeds with exactly those 4
raw bytes as an arbitrary-byte key and emits the diagnostic (the `Bool`
component); when the length `L` is nonzero it returns the next `L` bytes as
an arbitrary-byte key with no diagnostic. -/
theorem c4_fallback_key_tolerance :
    (∀ (b rest : ByteSeq), b.length = 4 →
      DescriptorClassID.ofCode b = none →
      read_length_and_key (u32be 0 ++ (b ++ rest)) =
        .ok (DKey.raw b, true, rest)) ∧
    (∀ (L : Nat) (b rest : ByteSeq), L ≠ 0 → L < 4294967296 →
      b.length = L →
      read_length_and_key (u32be L ++ (b ++ rest)) =
        .ok (DKey.raw b, false, rest)) := by
  constructor
  · intro b rest hb4 hnone
    rw [read_length_and_key]
    simp only [read_fmt_I_append 0 _ (by omega)]
    simp [List.take_left' hb4, List.drop_left' hb4, hnone]
  · intro L b rest hL hlt hbl
    rw [read_length_and_key]
    simp only [read_fmt_I_append L _ hlt]
    simp only [if_neg hL]
    rw [List.take_left' hbl, List.drop_left' hbl]

/-- C4 witness: the unknown code `[1,2,3,4]` in the compact position yields
the raw key with a diagnostic; a 2-byte explicit-length key is returned
verbatim. -/
theorem c4_fallback_key_tolerance_witness :
    (([1, 2, 3, 4] : ByteSeq).length = 4 ∧
      DescriptorClassID.ofCode [1, 2, 3, 4] = none ∧
      read_length_and_key (u32be 0 ++ ([1, 2, 3, 4] ++ [9])) =
        .ok (DKey.raw [1, 2, 3, 4], true, [9])) ∧
    ((2 : Nat) ≠ 0 ∧ ([5, 6] : ByteSeq).length = 2 ∧
      read_length_and_key (u32be 2 ++ ([5, 6] ++ [9])) =
        .ok (DKey.raw [5, 6], false, [9])) :=
  ⟨⟨by decide, by decide,
    c4_fallback_key_tolerance.1 [1, 2, 3, 4] [9] (by decide) (by decide)⟩,
   ⟨by decide, by decide,
    c4_fallback_key_tolerance.2 2 [5, 6] [9] (by decide) (by decide)
      (by decide)⟩⟩

/-- C5: the null-value guard of `Descriptor.read` (lines 100-103). The claim
says a `None` sub-decoder result only emits a diagnostic and the entry is
still recorded; but the module never imports `warnings`, so the guard as
written raises `NameError` and aborts without recording the entry, while a
non-`None` value is recorded unchanged. -/
theorem c5_none_value_guard :
    (∀ k : DKey, recordEntry k none = .error .nameError) ∧
    (∀ (k : DKey) (v : Element), recordEntry k (some v) = .ok (k, v)) :=
  ⟨fun _ => rfl, fun _ _ => rfl⟩

/-- C8: `Descriptor.write` returns exactly the number of bytes it appended
to the stream: the accumulated `written` count equals the length of the
emitted byte sequence, for every descriptor. -/
theorem c8_write_returns_byte_count :
    ∀ (t : OSType) (n : UString) (c : DKey)
      (items : List (DKey × Element)),
      (writeBody (Element.descriptor t n c items)).2 =
        (writeBody (Element.descriptor t n c items)).1.length :=
  fun t n c items =>
    (writeBody_count (Element.depth (.descriptor t n c items)) _
      le_rfl).symm

/-- C10: a 4-byte unit code outside the fixed unit-type enumeration is fatal
for `UnitFloat.read` and `UnitFloats.read`: the converter/validator rejects
it and the read returns the invalid-unit error instead of retaining the raw
bytes and continuing. -/
theorem c10_invalid_unit_fatal :
    (∀ s : ByteSeq, 12 ≤ s.length →
      UnitFloatType.ofCode (s.take 4) = none →
      unitFloatRead s = .error (.invalidUnit (s.take 4))) ∧
    (∀ s : ByteSeq, 8 ≤ s.length →
      8 * beNat ((s.drop 4).take 4) ≤ (s.drop 8).length →
      UnitFloatType.ofCode (s.take 4) = none →
      unitFloatsRead s = .error (.invalidUnit (s.take 4))) := by
  constructor
  · intro s h12 hnone
    rw [unitFloatRead, if_neg (by omega)]
    simp only [hnone]
  · intro s h8 hcnt hnone
    simp only [unitFloatsRead]
    rw [if_neg (by omega), if_neg (by omega)]
    simp only [hnone]

/-- C10 witness: the unit code `[1,2,3,4]` (no unit type) with an 8-byte
zero payload for `UnitFloat.read`, and with a zero count for
`UnitFloats.read`. -/
theorem c10_invalid_unit_fatal_witness :
    (12 ≤ ([1, 2, 3, 4, 0, 0, 0, 0, 0, 0, 0, 0] : ByteSeq).length ∧
      UnitFloatType.ofCode
        (([1, 2, 3, 4, 0, 0, 0, 0, 0, 0, 0, 0] : ByteSeq).take 4) = none ∧
      unitFloatRead [1, 2, 3, 4, 0, 0, 0, 0, 0, 0, 0, 0] =
        .error (.invalidUnit
          (([1, 2, 3, 4, 0, 0, 0, 0, 0, 0, 0, 0] : ByteSeq).take 4))) ∧
    (8 ≤ ([1, 2, 3, 4, 0, 0, 0, 0] : ByteSeq).length ∧
      unitFloatsRead [1, 2, 3, 4, 0, 0, 0, 0] =
        .error (.invalidUnit (([1, 2, 3, 4, 0, 0, 0, 0] : ByteSeq).take 4))) :=
  ⟨⟨by decide, by decide,
    c10_invalid_unit_fatal.1 [1, 2, 3, 4, 0, 0, 0, 0, 0, 0, 0, 0]
      (by decide) (by decide)⟩,
   ⟨by decide,
    c10_invalid_unit_fatal.2 [1, 2, 3, 4, 0, 0, 0, 0] (by decide)
      (by decide) (by decide)⟩⟩

/-- C6: every registered alias (Class2/Class3 of Class1's shared `Class`
logic, Reference of List, Alias and Path of RawData, GlobalObject and
ObjectArray of Descriptor, Identifier and Index of Integer, Name of String)
decodes its body with the parent shape's logic — the results differ only in
the stored tag — writes its body identically to the parent (the body never
depends on the stored tag), and when written as a container child emits its
own 4-byte tag (`item.ostype.value`), not the parent's. -/
theorem c6_alias_tag_identity :
    (∀ (f : Nat) (s : ByteSeq),
      decodeBody (f + 1) OSType.globalObject s =
        retagRes .globalObject (decodeBody (f + 1) .descriptor s)) ∧
    (∀ (f : Nat) (s : ByteSeq),
      decodeBody (f + 1) OSType.objectArray s =
        retagRes .objectArray (decodeBody (f + 1) .descriptor s)) ∧
    (∀ (f : Nat) (s : ByteSeq),
      decodeBody (f + 1) OSType.reference s =
        retagRes .reference (decodeBody (f + 1) .list s)) ∧
    (∀ (f : Nat) (s : ByteSeq),
      decodeBody (f + 1) OSType.alias s =
        retagRes .alias (decodeBody (f + 1) .rawData s)) ∧
    (∀ (f : Nat) (s : ByteSeq),
      decodeBody (f + 1) OSType.path s =
        retagRes .path (decodeBody (f + 1) .rawData s)) ∧
    (∀ (f : Nat) (s : ByteSeq),
      decodeBody (f + 1) OSType.identifier s =
        retagRes .identifier (decodeBody (f + 1) .integer s)) ∧
    (∀ (f : Nat) (s : ByteSeq),
      decodeBody (f + 1) OSType.index s =
        retagRes .index (decodeBody (f + 1) .integer s)) ∧
    (∀ (f : Nat) (s : ByteSeq),
      decodeBody (f + 1) OSType.name s =
        retagRes .name (decodeBody (f + 1) .string s)) ∧
    (∀ (f : Nat) (s : ByteSeq),
      decodeBody (f + 1) OSType.class2 s =
        retagRes .class2 (decodeBody (f + 1) .class1 s)) ∧
    (∀ (f : Nat) (s : ByteSeq),
      decodeBody (f + 1) OSType.class3 s =
        retagRes .class3 (decodeBody (f + 1) .class1 s)) ∧
    (∀ (e : Element) (t : OSType), writeBody (e.retag t) = writeBody e) ∧
    (∀ (t : OSType) (n : UString) (c : DKey)
      (i : List (DKey × Element)),
      Element.ostype (Element.descriptor t n c i) = t) ∧
    (∀ (t : OSType) (i : List Element),
      Element.ostype (Element.list t i) = t) ∧
    (∀ (t : OSType) (n : UString) (c : DKey),
      Element.ostype (Element.classE t n c) = t) ∧
    (∀ (t : OSType) (u : UString),
      Element.ostype (Element.string t u) = t) ∧
    (∀ (t : OSType) (v : Int), Element.ostype (Element.integer t v) = t) ∧
    (∀ (t : OSType) (b : ByteSeq),
      Element.ostype (Element.rawData t b) = t) ∧
    (∀ (v : Element) (tl : List Element),
      (writeListItems (v :: tl)).1 =
        (Element.ostype v).code ++
          ((writeBody v).1 ++ (writeListItems tl).1)) ∧
    (∀ (k : DKey) (v : Element) (tl : List (DKey × Element)),
      (writeDescItems ((k, v) :: tl)).1 =
        (write_length_and_key k).1 ++ ((Element.ostype v).code ++
          ((writeBody v).1 ++ (writeDescItems tl).1))) := by
  refine ⟨?_, ?_, ?_, ?_, ?_, ?_, ?_, ?_, ?_, ?_, ?_, ?_, ?_, ?_, ?_, ?_,
    ?_, ?_, ?_⟩
  · intro f s
    simp only [decodeBody]
    exact descriptorRead_retag (decodeBody f) .descriptor .globalObject s
  · intro f s
    simp only [decodeBody]
    exact descriptorRead_retag (decodeBody f) .descriptor .objectArray s
  · intro f s
    simp only [decodeBody]
    exact listRead_retag (decodeBody f) .list .reference s
  · intro f s
    simp only [decodeBody]
    exact rawDataRead_retag .rawData .alias s
  · intro f s
    simp only [decodeBody]
    exact rawDataRead_retag .rawData .path s
  · intro f s
    simp only [decodeBody]
    exact integerRead_retag .integer .identifier s
  · intro f s
    simp only [decodeBody]
    exact integerRead_retag .integer .index s
  · intro f s
    simp only [decodeBody]
    exact stringRead_retag .string .name s
  · intro f s
    simp only [decodeBody]
    exact classRead_retag .class1 .class2 s
  · intro f s
    simp only [decodeBody]
    exact classRead_retag .class1 .class3 s
  · intro e t
    cases e <;> rfl
  · intro t n c i
    rfl
  · intro t i
    rfl
  · intro t n c
    rfl
  · intro t u
    rfl
  · intro t v
    rfl
  · intro t b
    rfl
  · intro v tl
    simp [writeListItems, List.append_assoc]
  · intro k v tl
    simp [writeDescItems, List.append_assoc]

/-- C7: the UTF-16 name of Descriptor and the String payload are written and
read in the padded mode — total block length padded to a multiple of 4 —
while the names of Property, Class, Offset, EnumeratedReference are written
and read unpadded, and Enum's key fields use the length-and-key encoding
(no unicode padding at all). The write equations exhibit the mode at each
call site, the length equations the effect of each mode, and the read
equations that each reader consumes exactly its writer's bytes. -/
theorem c7_padding_modes :
    (∀ (t : OSType) (n : UString) (c : DKey) (i : List (DKey × Element)),
      (writeBody (Element.descriptor t n c i)).1 =
        (write_unicode_string true n).1 ++ ((write_length_and_key c).1 ++
          (u32be i.length ++ (writeDescItems i).1))) ∧
    (∀ (t : OSType) (u : UString),
      writeBody (Element.string t u) = write_unicode_string true u) ∧
    (∀ (n : UString) (c k : DKey),
      (writeBody (Element.property n c k)).1 =
        (write_unicode_string false n).1 ++ ((write_length_and_key c).1 ++
          (write_length_and_key k).1)) ∧
    (∀ (t : OSType) (n : UString) (c : DKey),
      (writeBody (Element.classE t n c)).1 =
        (write_unicode_string false n).1 ++ (write_length_and_key c).1) ∧
    (∀ (n : UString) (c : DKey) (v : Nat),
      (writeBody (Element.offset n c v)).1 =
        (write_unicode_string false n).1 ++ ((write_length_and_key c).1 ++
          u32be v)) ∧
    (∀ (n : UString) (c t e : DKey),
      (writeBody (Element.enumeratedReference n c t e)).1 =
        (write_unicode_string false n).1 ++ ((write_length_and_key c).1 ++
          ((write_length_and_key t).1 ++ (write_length_and_key e).1))) ∧
    (∀ (t e : DKey),
      (writeBody (Element.enum t e)).1 =
        (write_length_and_key t).1 ++ (write_length_and_key e).1) ∧
    (∀ u : UString, (write_unicode_string true u).1.length % 4 = 0) ∧
    (∀ u : UString,
      (write_unicode_string false u).1.length = 4 + 2 * u.length) ∧
    (∀ (u : UString) (rest : ByteSeq), ustrWF u = true →
      read_unicode_string true ((write_unicode_string true u).1 ++ rest) =
        .ok (u, rest)) ∧
    (∀ (u : UString) (rest : ByteSeq), ustrWF u = true →
      read_unicode_string false ((write_unicode_string false u).1 ++ rest) =
        .ok (u, rest)) ∧
    (∀ (dec : OSType → ByteSeq → Except PError (Element × ByteSeq))
      (t : OSType) (n : UString) (c : DKey) (rest : ByteSeq),
      ustrWF n = true → keyWF c = true →
      descriptorRead dec t ((write_unicode_string true n).1 ++
        ((write_length_and_key c).1 ++ (u32be 0 ++ rest))) =
        .ok (.descriptor t n c [], rest)) ∧
    (∀ (n : UString) (c k : DKey) (rest : ByteSeq),
      ustrWF n = true → keyWF c = true → keyWF k = true →
      propertyRead ((write_unicode_string false n).1 ++
        ((write_length_and_key c).1 ++ ((write_length_and_key k).1 ++
        rest))) = .ok (.property n c k, rest)) := by
  refine ⟨?_, ?_, ?_, ?_, ?_, ?_, ?_, ?_, ?_, ?_, ?_, ?_, ?_⟩
  · intro t n c i
    simp [writeBody, write_fmt_I, List.append_assoc]
  · intro t u
    simp [writeBody]
  · intro n c k
    simp [writeBody, List.append_assoc]
  · intro t n c
    simp [writeBody]
  · intro n c v
    simp [writeBody, write_fmt_I, List.append_assoc]
  · intro n c t e
    simp [writeBody, List.append_assoc]
  · intro t e
    simp [writeBody]
  · intro u
    simp only [write_unicode_string, List.length_append, u32be,
      List.length_cons, List.length_nil, List.length_replicate,
      bytesOfUnits_length, if_true, padLen]
    omega
  · intro u
    simp [write_unicode_string, u32be, bytesOfUnits_length]
    omega
  · intro u rest h
    exact read_unicode_string_append true u rest h
  · intro u rest h
    exact read_unicode_string_append false u rest h
  · intro dec t n c rest hn hc
    have h := descriptorRead_append dec t n c [] rest hn hc (by simp)
      (by simp) (by intro kv hkv; cases hkv) (by intro kv hkv; cases hkv)
    simpa [writeDescItems] using h
  · intro n c k rest hn hc hk
    exact propertyRead_append n c k rest hn hc hk

/-- C7 witness: the conjuncts with hypotheses applied at the one-unit
string `[65]` (an odd code-unit count, so the padded mode appends 2 zero
bytes), the name `[65]` and classID `NULL` for the descriptor and property
readers. -/
theorem c7_padding_modes_witness :
    ustrWF [65] = true ∧
    read_unicode_string true ((write_unicode_string true [65]).1 ++ [9]) =
      .ok ([65], [9]) ∧
    read_unicode_string false ((write_unicode_string false [65]).1 ++ [9]) =
      .ok ([65], [9]) ∧
    descriptorRead (decodeBody 1) .descriptor
      ((write_unicode_string true [65]).1 ++
        ((write_length_and_key (DKey.known .null)).1 ++ (u32be 0 ++ [9]))) =
      .ok (.descriptor .descriptor [65] (DKey.known .null) [], [9]) ∧
    propertyRead ((write_unicode_string false [65]).1 ++
      ((write_length_and_key (DKey.known .null)).1 ++
        ((write_length_and_key (DKey.raw [97])).1 ++ [9]))) =
      .ok (.property [65] (DKey.known .null) (DKey.raw [97]), [9]) :=
  ⟨by decide,
   c7_padding_modes.2.2.2.2.2.2.2.2.2.1 [65] [9] (by decide),
   c7_padding_modes.2.2.2.2.2.2.2.2.2.2.1 [65] [9] (by decide),
   c7_padding_modes.2.2.2.2.2.2.2.2.2.2.2.1 (decodeBody 1) .descriptor
     [65] (DKey.known .null) [9] (by decide) (by decide),
   c7_padding_modes.2.2.2.2.2.2.2.2.2.2.2.2 [65] (DKey.known .null)
     (DKey.raw [97]) [9] (by decide) (by decide) (by decide)⟩

/-- C9: the `OrderedDict` converter makes every Descriptor's keys unique;
when a decoded stream repeats a key, the later entry replaces the earlier
one's value under that key, the resulting map is strictly shorter than the
declared count (here 1 entries from a declared count of 2), and writing the
result back emits the smaller length (the count field `[0,0,0,1]`) as the
entry count. -/
theorem c9_unique_keys :
    (∀ l : List (DKey × Element),
      ((toOrderedDict l).map Prod.fst).Nodup) ∧
    (∀ (k : DKey) (a b : Element),
      toOrderedDict [(k, a), (k, b)] = [(k, b)]) ∧
    decodeBody 2 .descriptor
      [0, 0, 0, 0, 0, 0, 0, 0, 110, 117, 108, 108, 0, 0, 0, 2,
       0, 0, 0, 4, 97, 98, 99, 100, 108, 111, 110, 103, 0, 0, 0, 1,
       0, 0, 0, 4, 97, 98, 99, 100, 108, 111, 110, 103, 0, 0, 0, 2] =
      .ok (.descriptor .descriptor [] (.known .null)
        [(.raw [97, 98, 99, 100], .integer .integer 2)], []) ∧
    ([(DKey.raw [97, 98, 99, 100],
        Element.integer .integer 2)] : List (DKey × Element)).length < 2 ∧
    (writeBody (.descriptor .descriptor [] (.known .null)
      [(.raw [97, 98, 99, 100], .integer .integer 2)])).1 =
      [0, 0, 0, 0, 0, 0, 0, 0, 110, 117, 108, 108, 0, 0, 0, 1,
       0, 0, 0, 4, 97, 98, 99, 100, 108, 111, 110, 103, 0, 0, 0, 2] := by
  refine ⟨toOrderedDict_nodup, ?_, by rfl, by decide, by rfl⟩
  intro k a b
  simp [toOrderedDict, odUpdate]

/-- C1 counterexample: round-trip fails for a Descriptor whose classID is
the empty arbitrary-byte key: its encoding (length 0, no bytes) is re-read
through the well-known-identifier branch, which consumes the following 4
bytes, so decoding the 12 encoded bytes ends in a truncation error instead
of the original tree. -/
theorem c1_roundtrip_counterexample :
    tobytes (Element.descriptor .descriptor [] (.raw []) []) =
      [0, 0, 0, 0, 0, 0, 0, 0, 0, 0, 0, 0] ∧
    frombytes .descriptor [0, 0, 0, 0, 0, 0, 0, 0, 0, 0, 0, 0] =
      .error .truncated ∧
    ¬ frombytes (Element.ostype (Element.descriptor .descriptor []
        (.raw []) []))
        (tobytes (Element.descriptor .descriptor [] (.raw []) [])) =
      .ok (Element.descriptor .descriptor [] (.raw []) [], []) := by
  refine ⟨by rfl, by rfl, ?_⟩
  intro h
  rw [show tobytes (Element.descriptor .descriptor [] (.raw []) []) =
    [0, 0, 0, 0, 0, 0, 0, 0, 0, 0, 0, 0] from rfl] at h
  rw [show Element.ostype (Element.descriptor .descriptor [] (.raw []) []) =
    .descriptor from rfl] at h
  rw [show frombytes .descriptor [0, 0, 0, 0, 0, 0, 0, 0, 0, 0, 0, 0] =
    .error .truncated from rfl] at h
  exact Except.noConfusion h

/-- C1 (amended): decoding the bytes produced by encoding yields a tree
structurally equal to the original — Descriptor keys, their order, List
item order and per-item tags all preserved — for every well-formed element:
tags consistent with shapes, numeric fields within their wire widths,
Descriptor keys unique, and every arbitrary-byte key nonempty (the
counterexample shows an empty arbitrary key breaks the round-trip). -/
theorem c1_roundtrip :
    ∀ v : Element, v.wfB = true →
      frombytes v.ostype (tobytes v) = .ok (v, []) := by
  intro v h
  unfold frombytes tobytes
  have hd := depth_le_tobytes v.depth v le_rfl
  have hmain := decodeBody_writeBody_aux v.depth v le_rfl h
    ((writeBody v).1.length + 1) (by omega) []
  simpa using hmain

/-- C1 witness: the round-trip theorem applied to a concrete tree with a
nested descriptor (under an alias tag), a heterogeneous list, both key
forms and a string. -/
theorem c1_roundtrip_witness :
    demoElement.wfB = true ∧
    frombytes demoElement.ostype (tobytes demoElement) =
      .ok (demoElement, []) :=
  ⟨by decide, c1_roundtrip demoElement (by decide)⟩
